import Mathlib

/-!
# Verification of the genozip compression engine against its specification

A shallow embedding, in Lean 4, of the parts of the genozip source tree
(src/piz.c, src/zip.c, src/txtfile.c, src/vcf_seg.c, src/fasta.c,
src/fast_shared.c) that the specification's testable properties talk about.

Modelling conventions:
* C machine integers are modelled as `Nat`/`Int`, with explicit two's-complement
  wraps (`% 2 ^ w`) exactly where the C code can overflow or convert.
* Byte buffers (`Buffer` in the source) are `List Nat` (byte values) or
  `List Char`; `buf.len` is `List.length`.
* Fallible code (the `ASSERT`/`ASSSEG`/`ABORT` macros, and reads that the C
  code performs without a bounds check) returns `Except`; an unguarded read
  past the end of a buffer is reported as a distinct `oob` error so that
  memory-safety claims can be stated.
* Calls into repository code that is not under src/ (base64.c, base250.c,
  move_to_front.c, the per-data-type SPECIAL handler tables) are modelled as an
  explicit `external` outcome, or — where a claim needs their behaviour — by a
  definition whose doc comment starts `Modelled from the spec:`.
-/

set_option autoImplicit false

namespace Genozip

/-! ## Machine-integer helpers -/

/-- Two's-complement reading of the low `w` bits of `n`: the value produced by a
gcc/clang conversion of an unsigned value `n` to a `w`-bit signed integer type. -/
def toSigned (w : Nat) (n : Nat) : Int :=
  if n % 2 ^ w < 2 ^ (w - 1) then ((n % 2 ^ w : Nat) : Int)
  else ((n % 2 ^ w : Nat) : Int) - 2 ^ w

/-- Two's-complement wrap of an arbitrary integer into the `w`-bit signed range:
the value gcc/clang produce when a signed arithmetic operation overflows at
width `w`. -/
def wrapSigned (w : Nat) (z : Int) : Int :=
  if z % (2 ^ w : Int) < 2 ^ (w - 1) then z % (2 ^ w : Int)
  else z % (2 ^ w : Int) - 2 ^ w

/-! ## The interlace transform (src/piz.c lines 70-111)

`#define DEINTERLACE(signedtype,unum)
   (((unum) & 1) ? -(signedtype)(((unum)>>1)+1) : (signedtype)((unum)>>1))`

`w` is the bit width of `signedtype` (8, 16, 32 or 64); `unum` is the unsigned
value loaded from the context's `local` stream, so `unum < 2 ^ w`.

C semantics being modelled, faithfully to gcc/clang:
* `((unum)>>1)+1 ≤ 2 ^ (w-1)` always, so the inner sum never wraps;
* the cast `(signedtype)x` is `toSigned w x` (implementation-defined in C,
  two's complement on gcc/clang);
* for `w ∈ {8,16}` the cast result is then *promoted to int* before the unary
  minus, so `-(signedtype)x` is computed exactly (no wrap) — in particular
  `-(int8_t)128` evaluates to `+128`;
* for `w ∈ {32,64}` the unary minus is computed at width `w` itself and its
  overflow (only at `x = 2 ^ (w-1)`) wraps on gcc/clang. -/
def DEINTERLACE (w : Nat) (unum : Nat) : Int :=
  if unum % 2 = 1 then
    let s := toSigned w (unum / 2 + 1)
    if w ≤ 16 then -s else wrapSigned w (-s)
  else
    toSigned w (unum / 2)

/-- Modelled from the spec: the zip-side interlace transform lives in
move_to_front.c / seg code that is not under src/.  Spec §4.3:
`append_local_int(v, width)`: signed integers use the interlaced transform
`v≥0 → 2v`, `v<0 → 2|v|−1`. -/
def interlace (v : Int) : Nat :=
  if 0 ≤ v then (2 * v).toNat else (2 * (-v) - 1).toNat

/-! ## C string-to-integer helpers (libc models)

`strtoull (s, &after, 10)` as used by src/piz.c: skip leading white space, an
optional sign, then base-10 digits.  If there are no digits, no conversion is
performed and `after` stays at the start.  On overflow the result is clamped to
`ULLONG_MAX`; a leading minus negates the converted value in the (64-bit
unsigned) return type.  In the source the parsed byte range always ends at a
non-digit separator byte, so parsing the snip as a standalone list is faithful. -/

def isSpaceByte (c : Nat) : Bool :=
  c = 32 || c = 9 || c = 10 || c = 11 || c = 12 || c = 13

def isDigitByte (c : Nat) : Bool := 48 ≤ c && c ≤ 57

/-- Value of a list of ASCII digit bytes, most significant first. -/
def digitsVal (s : List Nat) : Nat :=
  s.foldl (fun acc c => acc * 10 + (c - 48)) 0

/-- `(value, bytes consumed)` of C `strtoull (s, &after, 10)` on the byte list
`s` (with `after - s` as the second component). -/
def cStrtoull (s : List Nat) : Nat × Nat :=
  let ws := s.takeWhile isSpaceByte
  let rest := s.drop ws.length
  let (neg, signLen, rest2) :=
    match rest with
    | 45 :: r => (true, 1, r)   -- '-'
    | 43 :: r => (false, 1, r)  -- '+'
    | r => (false, 0, r)
  let digits := rest2.takeWhile isDigitByte
  if digits.length = 0 then (0, 0)
  else
    let n := digitsVal digits
    let n := if n ≤ 2 ^ 64 - 1 then n else 2 ^ 64 - 1  -- clamp at ULLONG_MAX
    let v := if neg then (2 ^ 64 - n % 2 ^ 64) % 2 ^ 64 else n
    (v, ws.length + signLen + digits.length)

/-- `(int64_t) strtoull (s, NULL, 10)` — the form used by
`piz_reconstruct_from_delta` and the literal-snip store path. -/
def cStrtoullAsInt64 (s : List Nat) : Int :=
  toSigned 64 (cStrtoull s).1

/-- C `atoi` as used by `piz_reconstruct_from_local_sequence` (the sequence
lengths that reach it are small decimal numerals, far from `int` overflow). -/
def cAtoi (s : List Nat) : Int :=
  let ws := s.takeWhile isSpaceByte
  let rest := s.drop ws.length
  let (neg, rest2) :=
    match rest with
    | 45 :: r => (true, r)
    | 43 :: r => (false, r)
    | r => (false, r)
  let digits := rest2.takeWhile isDigitByte
  if neg then -(digitsVal digits : Int) else (digitsVal digits : Int)

/-- ASCII decimal rendering of a natural number (`str_int` in strings.c). -/
def natDecBytes (n : Nat) : List Nat :=
  (Nat.toDigits 10 n).map Char.toNat

/-- ASCII decimal rendering of a signed 64-bit value: the effect of the
`RECONSTRUCT_INT` macro, which appends `str_int (num)` to `vb->txt_data`. -/
def intDecBytes (v : Int) : List Nat :=
  if v < 0 then 45 :: natDecBytes (-v).toNat else natDecBytes v.toNat

/-! ## The PIZ snip interpreter (src/piz.c lines 26-334)

### Snip opcodes and local-stream types

Modelled from the spec: the opcode byte values and the `ltype` enum are
declared in move_to_front.h, which is not under src/.  Spec §3 says the
opcodes are distinct bytes in a private low-ASCII range; no claim depends on
the particular values, only on their distinctness. -/

def SNIP_SEP : Nat := 0
def SNIP_LOOKUP : Nat := 1
def SNIP_OTHER_LOOKUP : Nat := 2
def SNIP_STRUCTURED : Nat := 4
def SNIP_SELF_DELTA : Nat := 5
def SNIP_OTHER_DELTA : Nat := 6
def SNIP_SPECIAL : Nat := 8
def SNIP_REDIRECTION : Nat := 11
def SNIP_DONT_STORE : Nat := 12

/-- `ctx->ltype`.  Modelled from the spec (§3): the `local` stream holds
fixed-width big-endian integers (`int8|u8|…|i64|u64`), raw sequence bytes, or
separator-terminated text.  `isInt` is the source's range test
`ltype >= CTX_LT_INT8 && ltype <= CTX_LT_UINT64`. -/
inductive CtxLtype
  | i8 | u8 | i16 | u16 | i32 | u32 | i64 | u64 | sequence | text
  deriving DecidableEq, Repr

/-- `ctx_lt_sizeof_one`: bytes per code unit of the `local` stream. -/
def ctx_lt_sizeof_one : CtxLtype → Nat
  | .i8 => 1 | .u8 => 1 | .i16 => 2 | .u16 => 2
  | .i32 => 4 | .u32 => 4 | .i64 => 8 | .u64 => 8
  | .sequence => 1 | .text => 1

/-- `ctx_lt_is_signed`. -/
def ctx_lt_is_signed : CtxLtype → Bool
  | .i8 => true | .i16 => true | .i32 => true | .i64 => true
  | _ => false

def CtxLtype.isInt : CtxLtype → Bool
  | .i8 | .u8 | .i16 | .u16 | .i32 | .u32 | .i64 | .u64 => true
  | _ => false

/-- One `MtfContext`, restricted to the fields the PIZ interpreter touches.

`local_buf` models `ctx->local` in *code units*, matching the semantics of
`ctx->local.len` in the source: one entry per byte for TEXT and SEQUENCE
ltypes, one entry per fixed-width big-endian word (already byte-order decoded,
i.e. post-`BGEN`) for the integer ltypes (`piz_reconstruct_from_local_int`
notes "len is in units of width").

`store_value` is the `CTX_FL_STORE_VALUE` bit of `ctx->flags`.  `skip_local`
is the value of `piz_is_skip_section (vb, SEC_LOCAL, ctx->dict_id)` — a
per-data-type callback that only gates whether reconstructed bytes are
emitted.  `is_v4_pos_dict` / `is_v4_info_dict` model the pre-v5 dict-id
comparisons `dict_id.num == dict_id_fields[VCF_POS] / [VCF_INFO]`. -/
structure MtfContext where
  local_buf : List Nat
  next_local : Nat
  ltype : CtxLtype
  store_value : Bool
  skip_local : Bool
  is_v4_pos_dict : Bool
  is_v4_info_dict : Bool
  last_value : Int
  last_delta : Int
  last_line_i : Nat
  deriving DecidableEq, Repr

/-- The vblock state seen by the snip interpreter. -/
structure VBlockPiz where
  txt_data : List Nat
  seq_len : Nat
  line_i : Nat
  is_v5_or_above : Bool
  contexts : List MtfContext
  deriving DecidableEq, Repr

/-- Outcomes of the modelled interpreter.

* `oob` — the source performs a memory read beyond the end of a buffer that no
  preceding bounds check guards (this is the outcome memory-safety claims are
  about);
* `assertFail` — an `ASSERT`/`ABORT` macro fires (a graceful abort, not an
  out-of-bounds access);
* `external` — the source calls repository code that is not under src/
  (base64.c for the `OTHER_*`/`REDIRECTION`/`STRUCTURED` payloads, the
  per-data-type SPECIAL handler table, seg_info_field for pre-v5 INFO);
* `outOfFuel` — the fuel bounding the `piz_reconstruct_from_local_text` →
  `piz_reconstruct_one_snip` recursion ran out. -/
inductive PizErr
  | oob | assertFail | external | outOfFuel
  deriving DecidableEq, Repr

/-- Apply `f` to context `i` (a C write through the `ctx` pointer). -/
def modifyCtx (vb : VBlockPiz) (i : Nat) (f : MtfContext → MtfContext) : VBlockPiz :=
  { vb with contexts :=
      match vb.contexts[i]? with
      | some c => vb.contexts.set i (f c)
      | none => vb.contexts }

/-- Append bytes to `vb->txt_data` (the `RECONSTRUCT` macro). -/
def reconstructBytes (vb : VBlockPiz) (s : List Nat) : VBlockPiz :=
  { vb with txt_data := vb.txt_data ++ s }

/-- src/piz.c lines 30-50, `piz_reconstruct_from_delta`.  In the modelled
paths (`SNIP_SELF_DELTA` and the pre-v5 POS default path) `my_ctx` and
`base_ctx` are the same context, so the function takes a single index.
Payload `"-"` negates the previous value, the empty payload negates the
previous delta, anything else is parsed by `strtoull`; the new value is
`last_value + last_delta` and its decimal rendering is appended
(`RECONSTRUCT_INT`). -/
def piz_reconstruct_from_delta (vb : VBlockPiz) (i : Nat) (delta_snip : List Nat) :
    Except PizErr (VBlockPiz × Int) :=
  match vb.contexts[i]? with
  | none => .error .assertFail
  | some ctx =>
    let d : Int :=
      if delta_snip = [45] then -2 * ctx.last_value
      else if delta_snip = [] then -ctx.last_delta
      else cStrtoullAsInt64 delta_snip
    let new_value := ctx.last_value + d
    let vb := modifyCtx vb i (fun c => { c with last_delta := d })
    .ok (reconstructBytes vb (intDecBytes new_value), new_value)

/-- src/piz.c lines 76-111, `piz_reconstruct_from_local_int`.  The bounds
check `ASSERT (ctx->next_local < ctx->local.len)` precedes the load; the
loaded word is the post-`BGEN` big-endian value (one code unit), and signed
ltypes apply `DEINTERLACE`.  A non-zero `seperator` byte is appended after the
numeral. -/
def piz_reconstruct_from_local_int (vb : VBlockPiz) (i : Nat) (seperator : Nat) :
    Except PizErr (VBlockPiz × Int) :=
  match vb.contexts[i]? with
  | none => .error .assertFail
  | some ctx =>
    let width := ctx_lt_sizeof_one ctx.ltype
    if h : ctx.next_local < ctx.local_buf.length then
      let unum := ctx.local_buf[ctx.next_local] % 2 ^ (8 * width)
      let num : Int :=
        if ctx_lt_is_signed ctx.ltype then DEINTERLACE (8 * width) unum
        else toSigned 64 unum
      let vb := modifyCtx vb i (fun c => { c with next_local := c.next_local + 1 })
      let vb := reconstructBytes vb (intDecBytes num)
      let vb := if seperator ≠ 0 then reconstructBytes vb [seperator] else vb
      .ok (vb, num)
    else .error .assertFail

/-- src/piz.c lines 115-139, `piz_reconstruct_from_local_sequence`.  A
non-empty snip updates `vb->seq_len` (via `atoi`, truncated into the
`uint32_t` field).  The source then reads `ctx->local.data[ctx->next_local]`
with **no** preceding bounds check — when `next_local` is past the end of
`local` this is the out-of-bounds read reported as `.oob`.  The `' '` case
reconstructs `'*'` and consumes one byte; otherwise `vb->seq_len` bytes are
consumed, guarded by `ASSERT (next_local + len <= local.len)`.
`last_value` records the start of the sequence. -/
def piz_reconstruct_from_local_sequence (vb : VBlockPiz) (i : Nat) (snip : List Nat) :
    Except PizErr VBlockPiz :=
  match vb.contexts[i]? with
  | none => .error .assertFail
  | some ctx =>
    let reconstruct := !ctx.skip_local
    let vb := if snip.length ≠ 0 then { vb with seq_len := (cAtoi snip % (2 ^ 32 : Int)).toNat }
              else vb
    match ctx.local_buf[ctx.next_local]? with
    | none => .error .oob
    | some b =>
      if b = 32 then
        let vb := if reconstruct then reconstructBytes vb [42] else vb
        .ok (modifyCtx vb i (fun c =>
          { c with last_value := (c.next_local : Int), next_local := c.next_local + 1 }))
      else
        let len := vb.seq_len
        if ctx.next_local + len ≤ ctx.local_buf.length then
          let vb := if reconstruct then
                      reconstructBytes vb ((ctx.local_buf.drop ctx.next_local).take len)
                    else vb
          .ok (modifyCtx vb i (fun c =>
            { c with last_value := (c.next_local : Int), next_local := c.next_local + len }))
        else .error .assertFail

/-- The common tail of `piz_reconstruct_one_snip` (src/piz.c lines 329-333):
store `new_value` into `last_value` when the snip produced one and the store
flag is in effect, then stamp `last_line_i`.  In every modelled path
`base_ctx = snip_ctx`, so a single index is taken. -/
def finishSnip (vb : VBlockPiz) (i : Nat) (store : Bool) (newv : Option Int) : VBlockPiz :=
  let vb :=
    match newv with
    | some nv => if store then modifyCtx vb i (fun c => { c with last_value := nv }) else vb
    | none => vb
  modifyCtx vb i (fun c => { c with last_line_i := vb.line_i })

/-- src/piz.c lines 52-68, `piz_reconstruct_from_local_text`, parameterized by
the interpreter to call back (`piz_reconstruct_one_snip` at the current fuel):
scan `local` from `next_local` for the `SNIP_SEP` terminator (each read is
guarded by `next_local < local.len`), `ASSERT` that the terminator was found,
advance the cursor past it and interpret the scanned snip. -/
def piz_reconstruct_from_local_text_go
    (interp : VBlockPiz → Nat → List Nat → Except PizErr VBlockPiz)
    (vb : VBlockPiz) (i : Nat) : Except PizErr VBlockPiz :=
  match vb.contexts[i]? with
  | none => .error .assertFail
  | some ctx =>
    let start := ctx.next_local
    let snip := (ctx.local_buf.drop start).takeWhile (fun b => b ≠ SNIP_SEP)
    let stop := start + snip.length      -- next_local after the while loop
    if stop < ctx.local_buf.length then
      let vb := modifyCtx vb i (fun c => { c with next_local := stop + 1 }) -- skip the sep
      interp vb i snip
    else .error .assertFail

/-- src/piz.c lines 226-334, `piz_reconstruct_one_snip`.  `fuel` bounds the
mutual recursion with `piz_reconstruct_from_local_text` (each nesting level
consumes at least one byte of `local`, so any fuel above the remaining local
length suffices — see `c2` below).  Branches whose code is not under src/
(`OTHER_*`, `REDIRECTION`, `STRUCTURED` payload decoding via base64.c, the
SPECIAL handler table, pre-v5 INFO via seg_info_field) end in
`.error .external`. -/
def piz_reconstruct_one_snip : Nat → VBlockPiz → Nat → List Nat → Except PizErr VBlockPiz
  | 0, _, _, _ => .error .outOfFuel
  | fuel + 1, vb, i, snip =>
    match snip with
    | [] => .ok vb      -- if (!snip_len) return;
    | c0 :: rest =>
      match vb.contexts[i]? with
      | none => .error .assertFail
      | some ctx =>
        let store := ctx.store_value
        if c0 = SNIP_LOOKUP || c0 = SNIP_OTHER_LOOKUP then
          if c0 = SNIP_OTHER_LOOKUP then .error .external   -- piz_get_other_ctx_from_snip: base64.c
          else
            -- case 1: LOCAL is not SEQUENCE - reconstruct the tail of the snip first
            let vb := if rest.length ≠ 0 && !(ctx.ltype = .sequence) then reconstructBytes vb rest
                      else vb
            if ctx.ltype.isInt then
              match piz_reconstruct_from_local_int vb i 0 with
              | .error e => .error e
              | .ok (vb, num) => .ok (finishSnip vb i store (some num))
            else if ctx.ltype = .sequence then
              match piz_reconstruct_from_local_sequence vb i rest with
              | .error e => .error e
              | .ok vb => .ok (finishSnip vb i store none)
            else
              match piz_reconstruct_from_local_text_go (piz_reconstruct_one_snip fuel) vb i with
              | .error e => .error e
              | .ok vb => .ok (finishSnip vb i store none)
        else if c0 = SNIP_SELF_DELTA then
          match piz_reconstruct_from_delta vb i rest with
          | .error e => .error e
          | .ok (vb, nv) => .ok (finishSnip vb i store (some nv))
        else if c0 = SNIP_OTHER_DELTA then .error .external
        else if c0 = SNIP_STRUCTURED then .error .external
        else if c0 = SNIP_SPECIAL then
          if rest.length ≥ 1 then .error .external else .error .assertFail
        else if c0 = SNIP_REDIRECTION then .error .external
        else
          -- SNIP_DONT_STORE overrides the store flag and falls through to the default
          let store := if c0 = SNIP_DONT_STORE then false else store
          let snip2 := if c0 = SNIP_DONT_STORE then rest else c0 :: rest
          if !vb.is_v5_or_above && ctx.is_v4_pos_dict then
            -- pre-v5 VCF: all POS snips are deltas, with a hard-coded store
            match piz_reconstruct_from_delta vb i snip2 with
            | .error e => .error e
            | .ok (vb, nv) => .ok (finishSnip vb i true (some nv))
          else if !vb.is_v5_or_above && ctx.is_v4_info_dict then .error .external
          else
            let vb := reconstructBytes vb snip2       -- simple reconstruction
            let parsed := cStrtoull snip2
            let have_new := store && decide (parsed.2 = snip2.length)
            let vb := modifyCtx vb i (fun c => { c with last_delta := 0 })
            .ok (finishSnip vb i store
                  (if have_new then some (toSigned 64 parsed.1) else none))

/-- `piz_reconstruct_from_local_text` at a given fuel. -/
def piz_reconstruct_from_local_text (fuel : Nat) (vb : VBlockPiz) (i : Nat) :
    Except PizErr VBlockPiz :=
  piz_reconstruct_from_local_text_go (piz_reconstruct_one_snip fuel) vb i

/-- `local.len - next_local`: the number of unconsumed code units of context
`i`'s local stream; each nesting level of `piz_reconstruct_from_local_text`
consumes at least one, which bounds the interpreter's recursion depth. -/
def localRemaining (vb : VBlockPiz) (i : Nat) : Nat :=
  match vb.contexts[i]? with
  | some c => c.local_buf.length - c.next_local
  | none => 0

/-! ## The b250 generator (src/zip.c lines 60-104) -/

/-- A node's precomputed encoded word index (`Base250 index = node->word_index`):
the numeric index `n` and its base-250 numerals.  The numerals are computed by
base250.c (not under src/); `zip_generate_b250_section` only copies them, so
they are carried as data here. -/
structure Base250 where
  n : Nat
  numerals : List Nat
  deriving DecidableEq, Repr

/-- What `zip_generate_b250_section` appends to `ctx->b250` for one line: the
one-byte `BASE250_ONE_UP` sentinel, or the index's numerals (the source's
`num_numerals == 1` shortcut and the `memcpy` branch both append exactly
`index.numerals`). -/
inductive B250Token
  | oneUp
  | numerals (l : List Nat)
  deriving DecidableEq, Repr

/-- The loop of `zip_generate_b250_section` (src/zip.c lines 76-102): `prev`
starts at `-1`, `i` is the line counter, and
`is_genotype_section` models `ctx->b250_section_type == SEC_GENOTYPE_DATA`
(ONE_UP is suppressed there because many GT data types share that section).
The `mtf_node` resolution of `mtf_i` entries to `node->word_index`
(move_to_front.c, not under src/) is the input list. -/
def zip_generate_b250_loop (is_genotype_section : Bool) :
    Int → Nat → List Base250 → List B250Token
  | _, _, [] => []
  | prev, i, index :: rest =>
    let one_up : Bool :=
      decide ((index.n : Int) = prev + 1) && !is_genotype_section && decide (0 < i)
    (if one_up then .oneUp else .numerals index.numerals) ::
      zip_generate_b250_loop is_genotype_section (index.n : Int) (i + 1) rest

/-- src/zip.c `zip_generate_b250_section`, as the per-line token sequence it
appends to `ctx->b250` (`int32_t prev = -1`). -/
def zip_generate_b250_section (is_genotype_section : Bool) (idxs : List Base250) :
    List B250Token :=
  zip_generate_b250_loop is_genotype_section (-1) 0 idxs

/-! ## vblock boundary trimming (src/txtfile.c lines 167-255)

The tail of `txtfile_read_vblock`: scan `txt_data` backwards for the last
record boundary, keep the prefix up to and including that `'\n'`, and move the
suffix into `txt_file->unconsumed_txt` (the head of the next vblock).  The
result pair is `(kept text, unconsumed suffix)`. -/

inductive TxtErr
  | abortTruncated    -- ABORT: "last FASTQ record appears truncated ..."
  deriving DecidableEq, Repr

/-- The backward scan `for (int32_t i = txt_i-1; i >= 0; i--)` of
`txtfile_fastq_is_end_of_line`: greatest `j < txt_i` with `txt[j] = '\n'`. -/
def scanBackNl (txt : List Char) : Nat → Option Nat
  | 0 => none
  | j + 1 => if txt[j]? = some '\n' then some j else scanBackNl txt j

/-- src/txtfile.c lines 168-186, `txtfile_fastq_is_end_of_line`: `txt_i` is the
index of a `'\n'`.  Before the end of the data, the next byte deciding the
matter is `'@'`; at the very end, the scan back to the previous `'\n'` checks
that the line before it is exactly `"+"` (or `"+\r"`), aborting when no
previous `'\n'` exists.  The `i > 3` guard short-circuits before the C reads
`txt[i-1..i-3]`, which the total `getElem?` reads model soundly. -/
def txtfile_fastq_is_end_of_line (txt : List Char) (txt_i : Nat) : Except TxtErr Bool :=
  if txt_i + 1 < txt.length then .ok (decide (txt[txt_i + 1]? = some '@'))
  else
    match scanBackNl txt txt_i with
    | some i =>
      .ok (decide (3 < i) &&
            (decide (txt[i - 2]? = some '\n') && decide (txt[i - 1]? = some '+') ||
             decide (txt[i - 3]? = some '\n') && decide (txt[i - 2]? = some '+') &&
               decide (txt[i - 1]? = some '\r')))
    | none => .error .abortTruncated

/-- The backward loop of src/txtfile.c lines 225-244: argument `k` means
indices `k-1, k-2, …, 0` remain to be examined.  On the first `'\n'` accepted
(`!FASTQ`, or the FASTQ end-of-record heuristic) the text is cut right after
it: `unconsumed_len = len-1-i` bytes move to `unconsumed_txt` and
`txt_data.len` shrinks by that amount — i.e. `(take (i+1), drop (i+1))`.  If
no `'\n'` is accepted the vblock keeps all bytes. -/
def txtfile_trim_scan (isFastq : Bool) (txt : List Char) :
    Nat → Except TxtErr (List Char × List Char)
  | 0 => .ok (txt, [])
  | k + 1 =>
    if txt[k]? = some '\n' then
      if isFastq then
        match txtfile_fastq_is_end_of_line txt k with
        | .error e => .error e
        | .ok true => .ok (txt.take (k + 1), txt.drop (k + 1))
        | .ok false => txtfile_trim_scan isFastq txt k
      else .ok (txt.take (k + 1), txt.drop (k + 1))
    else txtfile_trim_scan isFastq txt k

/-- The boundary-trimming tail of `txtfile_read_vblock` on the bytes read. -/
def txtfile_trim_vblock (isFastq : Bool) (txt : List Char) :
    Except TxtErr (List Char × List Char) :=
  txtfile_trim_scan isFastq txt txt.length

/-- Checks that a list of lines is a concatenation of complete FASTQ records:
4 lines per record, the 1st starting with `'@'`, the 3rd with `'+'`. -/
def fastq_groups_ok : List (List Char) → Bool
  | [] => true
  | l1 :: _ :: l3 :: _ :: rest =>
    decide (l1.head? = some '@') && decide (l3.head? = some '+') && fastq_groups_ok rest
  | _ => false

/-- Modelled from the spec: the framing contract (§6) — "FASTQ: 4-line record;
record begins with `@`; the 3rd line begins with `+`" — and §4.8(c) "for FASTQ
this means a 4-line group boundary".  Position `i` ends a complete 4-line
record group when `txt[i] = '\n'` and the prefix through `i` splits into whole
records.  This specification-side definition is compared against the source's
heuristic. -/
def spec_fastq_group_boundary (txt : List Char) (i : Nat) : Bool :=
  decide (txt[i]? = some '\n') &&
    fastq_groups_ok (((txt.take (i + 1)).splitOn '\n').dropLast)

/-- The C6 counterexample input: a complete FASTQ record `@r1/AC/+/IJ` followed
by a record whose quality line starts with `'@'` (legal FASTQ). -/
def c6txt : List Char := "@r1\nAC\n+\nIJ\n@r2\nGG\n+\n@@".toList

/-! ## FASTA reconstruction under --grep (src/fasta.c, src/fast_shared.c)

The claims are about which lines are emitted, so a FASTA vblock is modelled by
the kinds of its lines; for a description line, `matches` records the value of
`!!strstr (desc_start, flag_grep)` computed by `fasta_piz_special_DESC` /
`fast_piz_test_grep` (strstr is libc).  The modelled flags are `flag_grep` set
and `flag_no_header`, `flag_header_one`, `flag_fasta_sequential` clear. -/

inductive FLine
  | desc (m : Bool)
  | seqLine
  | commentLine
  deriving DecidableEq, Repr

def FLine.isDesc : FLine → Bool
  | .desc _ => true
  | _ => false

def FLine.descMatch : FLine → Bool
  | .desc m => m
  | _ => false

/-- `desc_ctx->b250.len > 0` for the vblock: it contains a description line. -/
def hasDesc (lines : List FLine) : Bool := lines.any FLine.isDesc

/-- The `match` variable left by the DESC loop of `fast_piz_test_grep`: the
match status of the vblock's *last* description line (`none` if it has none;
the C variable then keeps its initial `false`). -/
def lastDescMatch : List FLine → Option Bool
  | [] => none
  | l :: rest =>
    match lastDescMatch rest, l with
    | some m, _ => some m
    | none, .desc m => some m
    | none, _ => none

/-- src/fasta.c lines 165-181, `fasta_initialize_contig_grepped_out`, with the
static `prev_vb_last_contig_grepped_out` made explicit.  Returns
`(vb->contig_grepped_out as initialized, updated static, ret)`. -/
def fasta_initialize_contig_grepped_out (prev does_vb_have_any_desc last_match : Bool) :
    Bool × Bool × Bool :=
  let ret := !prev
  let vbFlag := prev
  let prev' := if does_vb_have_any_desc then !last_match else prev
  (vbFlag, prev', ret)

/-- src/fast_shared.c lines 38-101, `fast_piz_test_grep` for FASTA, at the
level of its DESC loop: `found` is true when some description matches; the
loop runs to the end (FASTA has no break), leaving `match` = the last
description's status; then
`found = fasta_initialize_contig_grepped_out (vb, b250.len > 0, match) || found`.
Returns `(vb->contig_grepped_out, updated static, include this vblock)`. -/
def fast_piz_test_grep_fasta (prev : Bool) (lines : List FLine) : Bool × Bool × Bool :=
  let anyMatch := lines.any FLine.descMatch
  let r := fasta_initialize_contig_grepped_out prev (hasDesc lines) ((lastDescMatch lines).getD false)
  (r.1, r.2.1, r.2.2 || anyMatch)

/-- The `prev` update alone (the value the I/O thread's static variable has
after testing this vblock). -/
def grepStepPrev (prev : Bool) (lines : List FLine) : Bool :=
  (fast_piz_test_grep_fasta prev lines).2.1

/-- One line of `fasta_piz_reconstruct_vb` with `flag_grep` set: given
`contig_grepped_out = g`, returns `(line emitted, new contig_grepped_out)`.
`fasta_piz_special_DESC` sets `contig_grepped_out = !strstr(...)` and drops the
line when grepped out; `fasta_piz_special_SEQ`/`COMMENT` drop the line iff the
contig is grepped out (the rollback of `txt_data.len` in
`fasta_piz_reconstruct_vb`). -/
def fasta_piz_line (g : Bool) : FLine → Bool × Bool
  | .desc m => (m, !m)
  | .seqLine => (!g, g)
  | .commentLine => (!g, g)

/-- src/fasta.c lines 200-215, `fasta_piz_reconstruct_vb`: per-line emission
flags, threading `contig_grepped_out`. -/
def fasta_piz_reconstruct_vb (g : Bool) : List FLine → List Bool
  | [] => []
  | l :: rest => (fasta_piz_line g l).1 :: fasta_piz_reconstruct_vb (fasta_piz_line g l).2 rest

/-- `contig_grepped_out` after reconstructing the vblock's lines. -/
def fasta_piz_final_flag (g : Bool) : List FLine → Bool
  | [] => g
  | l :: rest => fasta_piz_final_flag (fasta_piz_line g l).2 rest

/-- The whole-file pipeline: the I/O thread evaluates `fast_piz_test_grep`
sequentially in vblock order (the static starts `false`); an included vblock
is reconstructed starting from its inherited flag, a grepped-out vblock is
abandoned (`dispatcher_abandon_next_vb`) and emits nothing. -/
def fasta_grep_pipeline : Bool → List (List FLine) → List (List Bool)
  | _, [] => []
  | prev, vb :: rest =>
    let r := fast_piz_test_grep_fasta prev vb
    (if r.2.2 then fasta_piz_reconstruct_vb r.1 vb else vb.map (fun _ => false)) ::
      fasta_grep_pipeline r.2.1 rest

/-- The static flag's value when vblock `k` (0-based) is about to be tested. -/
def prevFlagAt (vbs : List (List FLine)) (k : Nat) : Bool :=
  (vbs.take k).foldl grepStepPrev false

/-- The lines strictly between line `j` of vblock `i` and line `j'` of vblock
`i'` (in flattened order), used to say "no further description line starts a
new contig in between". -/
def linesBetween (vbs : List (List FLine)) (i j i' j' : Nat) : List FLine :=
  if i = i' then ((vbs[i]?.getD []).drop (j + 1)).take (j' - (j + 1))
  else
    (vbs[i]?.getD []).drop (j + 1) ++
    ((vbs.drop (i + 1)).take (i' - (i + 1))).flatten ++
    (vbs[i']?.getD []).take j'

/-! ### VCF ploidy escalation (src/vcf_seg.c) -/

/-- Errors of the VCF segmenter model: `assertFail` is a graceful `ASSSEG`
abort; `oob` an unguarded out-of-bounds access. -/
inductive SegErr where
  | assertFail : SegErr
  | oob : SegErr
deriving DecidableEq, Repr

/-- Modelled from the spec: the "illegal ploidy" bound (`VCF_MAX_PLOIDY`, the
bound of the `ASSSEG` at src/vcf_seg.c line 227; the header defining it is not
under src/). -/
def VCF_MAX_PLOIDY : Nat := 100

/-- Modelled from the spec: `PHASE_UNKNOWN` of the `PhaseType` enum (header
not under src/); only its distinctness from `'|'`, `'/'` and the other phase
values matters to the code under src/. -/
def PHASE_UNKNOWN : Char := '-'

/-- Modelled from the spec: `PHASE_HAPLO` of the `PhaseType` enum (header not
under src/). -/
def PHASE_HAPLO : Char := '1'

/-- Modelled from the spec: `PHASE_MIXED_PHASED` of the `PhaseType` enum
(header not under src/). -/
def PHASE_MIXED_PHASED : Char := '+'

/-- src/vcf_seg.c lines 180-181: the first inner loop of
`vcf_seg_increase_ploidy_one_line` — writes `'*'` at `base + ht_i` for
`ht_i = lo + n - 1` down to `lo` (at the call site `base = sam_i * new_ploidy`,
`lo = vb->ploidy`, `n = new_ploidy - vb->ploidy`). -/
def starWrites (base lo : Nat) : Nat → List Char → List Char
  | 0, b => b
  | n + 1, b => starWrites base lo n (b.set (base + lo + n) '*')

/-- src/vcf_seg.c lines 183-184: the second inner loop — copies
`line[rbase + ht_i]` to `line[wbase + ht_i]` for `ht_i = n - 1` down to `0`;
the C code operates in place, so every read sees the buffer as already
modified by the preceding writes. -/
def copyWrites (wbase rbase : Nat) : Nat → List Char → List Char
  | 0, b => b
  | n + 1, b => copyWrites wbase rbase n (b.set (wbase + n) (b.getD (rbase + n) '?'))

/-- One iteration of the outer `sam_i` loop of
`vcf_seg_increase_ploidy_one_line` (src/vcf_seg.c lines 178-187). -/
def incSample (b : List Char) (sam old new_p : Nat) : List Char :=
  copyWrites (sam * new_p) (sam * old) old (starWrites (sam * new_p) old (new_p - old) b)

/-- src/vcf_seg.c lines 175-188, `vcf_seg_increase_ploidy_one_line`: the outer
loop runs `sam_i = num_samples - 1` down to `0`. -/
def vcf_seg_increase_ploidy_one_line (b : List Char) (old new_p : Nat) : Nat → List Char
  | 0 => b
  | s + 1 => vcf_seg_increase_ploidy_one_line (incSample b s old new_p) old new_p s

/-- The haplotype/phase state of a VCF vblock being segmented:
`vb->ploidy`, `global_vcf_num_samples`, the committed haplotype data of the
previous lines (`HAPLOTYPE_DATA(vb,dl)` for each stored `dl`; `vb->line_i`
equals their count), and the current line's `vb->line_ht_data` /
`vb->line_phase_data` buffers. -/
structure SegVb where
  ploidy : Nat
  num_samples : Nat
  prev_lines : List (List Char)
  line_ht_data : List Char
  line_phase_data : List Char
deriving DecidableEq, Repr

/-- src/vcf_seg.c lines 190-215, `vcf_seg_increase_ploidy`: every previous
line's haplotype data is re-allocated to `num_samples * new_ploidy` bytes (the
spillover bytes beyond the copied old contents are uninitialized, modelled as
`'#'`) and back-padded in place by `vcf_seg_increase_ploidy_one_line`; if
`sample_i != 0`, the earlier samples of the current line are padded likewise;
finally `vb->ploidy` is raised.  We restrict to previous lines with haplotype
data (`dl->has_haplotype_data`), which is the case the claim concerns. -/
def vcf_seg_increase_ploidy (vb : SegVb) (new_p sample_i : Nat) : SegVb :=
  { vb with
    prev_lines := vb.prev_lines.map (fun old_line =>
      vcf_seg_increase_ploidy_one_line
        (old_line ++ List.replicate (vb.num_samples * new_p - old_line.length) '#')
        vb.ploidy new_p vb.num_samples),
    line_ht_data := if sample_i ≠ 0 then
        vcf_seg_increase_ploidy_one_line vb.line_ht_data vb.ploidy new_p sample_i
      else vb.line_ht_data,
    ploidy := new_p }

/-- src/vcf_seg.c lines 221-223: the ploidy of one GT cell — one plus the
number of `'|'`/`'/'` separators at the interior positions `1 .. len-2`. -/
def cellPloidy (s : List Char) : Nat :=
  1 + ((s.drop 1).take (s.length - 2)).countP (fun c => c == '|' || c == '/')

/-- State of the per-cell character loop of `vcf_seg_haplotype_area`
(src/vcf_seg.c lines 243-306): the current line's haplotype buffer
(`vb->line_ht_data`), its phase buffer (`vb->line_phase_data`),
`dl->phase_type`, and `ht0_phase_type`. -/
structure GtLoopState where
  buf : List Char
  pd : List Char
  dlPhase : Char
  ht0 : Char
deriving DecidableEq, Repr

/-- src/vcf_seg.c lines 246-306: the allele/phase loop of
`vcf_seg_haplotype_area`; `ht_i` runs `0 .. ploidy-1` (`k` is the number of
iterations left, `ht_i = p - k`), `base = vb->ploidy * sample_i`, `p` the
cell's ploidy, `ns = global_vcf_num_samples`.  A read of `*str` past the cell
hits the field separator of the surrounding line (a tab, colon or newline,
never `'|'`/`'/'`/digit), so the subsequent `ASSSEG` fails: such reads are
modelled as `assertFail`.  Context byte-count bookkeeping (`txt_len`) is
outside the model. -/
def gt_parse_loop (p base ns sample_i : Nat) :
    Nat → List Char → GtLoopState → Except SegErr GtLoopState
  | 0, _, st => .ok st
  | k + 1, str, st =>
    match str with
    | [] => .error .assertFail
    | ht :: rest =>
      if !(ht.isDigit || ht == '.' || ht == '*') then .error .assertFail else
      let ht_i := p - (k + 1)
      let st1 := { st with buf := st.buf.set (base + ht_i) ht }
      if rest.isEmpty then .ok st1 else
      let twodig := ht != '.' && (rest.getD 0 ' ').isDigit
      let allele2 := Char.ofNat (48 + 10 * (ht.toNat - 48) + ((rest.getD 0 ' ').toNat - 48))
      let st2 := if twodig then { st1 with buf := st1.buf.set (base + ht_i) allele2 } else st1
      let rest2 := if twodig then rest.drop 1 else rest
      if twodig && !rest2.isEmpty && (rest2.getD 0 ' ').isDigit then .error .assertFail else
      if p > 1 ∧ ht_i < p - 1 then
        match rest2 with
        | [] => .error .assertFail
        | ph :: rest3 =>
          if ph == ' ' then .error .assertFail else
          if !(ph == '|' || ph == '/') then .error .assertFail else
          if ht_i = 0 then
            let st3 :=
              if ph = st2.dlPhase then st2
              else if st2.dlPhase = PHASE_UNKNOWN ∨ st2.dlPhase = PHASE_HAPLO then
                { st2 with dlPhase := ph }
              else if (st2.dlPhase = '|' ∧ ph = '/') ∨ (st2.dlPhase = '/' ∧ ph = '|') then
                let pdAlloc := st2.pd ++ List.replicate (ns - st2.pd.length) '#'
                let other : Char := if ph = '|' then '/' else '|'
                { st2 with dlPhase := PHASE_MIXED_PHASED,
                           pd := ((List.replicate sample_i other) ++
                                   pdAlloc.drop sample_i).set sample_i ph }
              else if st2.dlPhase = PHASE_MIXED_PHASED then
                { st2 with pd := st2.pd.set sample_i ph }
              else st2
            gt_parse_loop p base ns sample_i k rest3 { st3 with ht0 := ph }
          else
            if ph ≠ st2.ht0 then .error .assertFail
            else gt_parse_loop p base ns sample_i k rest3 st2
      else
        gt_parse_loop p base ns sample_i k rest2 st2

/-- src/vcf_seg.c lines 217-317, `vcf_seg_haplotype_area` (haplotype/phase
state only): compute the cell's ploidy; `ASSSEG` it against `VCF_MAX_PLOIDY`;
if it exceeds the vblock's nonzero ploidy, raise the vblock ploidy (back-
padding all earlier rows and the earlier samples of this line); at sample 0,
grow the line buffer to `vb->ploidy * num_samples` (`buf_alloc` preserves the
old contents) and initialize `dl->phase_type`; run the allele/phase loop; pad
a short sample with `'*'` up to `vb->ploidy`. -/
def vcf_seg_haplotype_area (vb : SegVb) (dlPhase : Char) (cell : List Char) (sample_i : Nat) :
    Except SegErr (SegVb × Char) :=
  let p := cellPloidy cell
  if p > VCF_MAX_PLOIDY then .error .assertFail else
  let vb1 := if vb.ploidy ≠ 0 ∧ p > vb.ploidy then vcf_seg_increase_ploidy vb p sample_i else vb
  let vb2 := if vb1.ploidy = 0 then { vb1 with ploidy := p } else vb1
  let vb3 := if sample_i = 0 then
      { vb2 with line_ht_data := vb2.line_ht_data ++
          List.replicate (vb2.ploidy * vb2.num_samples - vb2.line_ht_data.length) '#' }
    else vb2
  let dlp := if sample_i = 0 then (if vb3.ploidy = 1 then PHASE_HAPLO else PHASE_UNKNOWN)
    else dlPhase
  match gt_parse_loop p (vb3.ploidy * sample_i) vb3.num_samples sample_i p cell
      { buf := vb3.line_ht_data, pd := vb3.line_phase_data, dlPhase := dlp,
        ht0 := PHASE_UNKNOWN } with
  | .error e => .error e
  | .ok st =>
    let buf := if p ≠ vb3.ploidy then
        (List.range (vb3.ploidy - p)).foldl
          (fun b k => b.set (vb3.ploidy * sample_i + p + k) '*') st.buf
      else st.buf
    let pd := if p = 1 ∧ vb3.ploidy > 1 ∧ st.dlPhase = PHASE_MIXED_PHASED then
        st.pd.set sample_i PHASE_HAPLO
      else st.pd
    .ok ({ vb3 with line_ht_data := buf, line_phase_data := pd }, st.dlPhase)

/-- The sample loop of `vcf_seg_txt_line` restricted to the GT path
(src/vcf_seg.c lines 545-561): segment each sample's GT cell left to right,
threading `dl->phase_type`. -/
def vcf_seg_gt_samples (vb : SegVb) (dlPhase : Char) (sample_i : Nat) :
    List (List Char) → Except SegErr (SegVb × Char)
  | [] => .ok (vb, dlPhase)
  | c :: cs =>
    match vcf_seg_haplotype_area vb dlPhase c sample_i with
    | .error e => .error e
    | .ok (vb', dl') => vcf_seg_gt_samples vb' dl' (sample_i + 1) cs

/-- One line of `vcf_seg_txt_line` on the GT path (src/vcf_seg.c lines
545-561 and 589-612): segment all samples, then commit
`global_vcf_num_samples * vb->ploidy` bytes of `vb->line_ht_data` as this
line's haplotype data (`vb->line_ht_data.len` at line 590, stored by
`vcf_seg_store` at line 611). -/
def vcf_seg_gt_line (vb : SegVb) (cells : List (List Char)) : Except SegErr SegVb :=
  match vcf_seg_gt_samples vb PHASE_UNKNOWN 0 cells with
  | .error e => .error e
  | .ok (vb', _) => .ok { vb' with
      prev_lines := vb'.prev_lines ++ [vb'.line_ht_data.take (vb'.num_samples * vb'.ploidy)] }

/-- The vblock's line loop on the GT path: one `vcf_seg_gt_line` per data
line, each starting with a fresh `dl` (`dl->phase_type = PHASE_UNKNOWN`). -/
def vcf_seg_gt_lines (vb : SegVb) : List (List (List Char)) → Except SegErr SegVb
  | [] => .ok vb
  | line :: rest =>
    match vcf_seg_gt_line vb line with
    | .error e => .error e
    | .ok vb' => vcf_seg_gt_lines vb' rest

/-- Modelled from the spec: PIZ-side reconstruction of one GT cell (the VCF
reconstruction code of this genozip version is not under src/) — the stored
haplotype characters of the sample interleaved with the line's phase
separator. -/
def spec_reconstruct_gt_cell (sep : Char) (hts : List Char) : List Char :=
  List.intersperse sep hts

/-! ### Concrete sample states (used by witnesses and counterexamples) -/

/-- A fresh VCF vblock with three samples (spec scenario 4). -/
def c7vb0 : SegVb :=
  { ploidy := 0, num_samples := 3, prev_lines := [], line_ht_data := [],
    line_phase_data := [] }

/-- The state after segmenting line 1 `0/0 0/0 0/0` and line 2
`0/1/1 0/1/1 0/1/1` into `c7vb0`: line 1's committed haplotype data has been
back-padded to `00*00*00*`. -/
def c7resS : SegVb :=
  { ploidy := 3, num_samples := 3,
    prev_lines := ["00*00*00*".toList, "011011011".toList],
    line_ht_data := "011011011".toList, line_phase_data := [] }

/-- The state after segmenting the single uniform-diploid line `0/0 0/0 0/0`
into `c7vb0`. -/
def c7resU : SegVb :=
  { ploidy := 2, num_samples := 3, prev_lines := ["000000".toList],
    line_ht_data := "000000".toList, line_phase_data := [] }

/-- A one-sample diploid vblock with one committed row, used to exercise the
ploidy increase. -/
def c7wvbA : SegVb :=
  { ploidy := 2, num_samples := 1, prev_lines := [['0', '1']], line_ht_data := [],
    line_phase_data := [] }

/-- A two-sample haploid vblock mid-line (sample 0 already written), used to
exercise the current-line padding. -/
def c7wvbB : SegVb :=
  { ploidy := 1, num_samples := 2, prev_lines := [], line_ht_data := ['0', '5'],
    line_phase_data := [] }

/-- A default context: empty streams, `text` ltype, all flags off. -/
def ctx0 : MtfContext :=
  { local_buf := [], next_local := 0, ltype := .text, store_value := false,
    skip_local := false, is_v4_pos_dict := false, is_v4_info_dict := false,
    last_value := 0, last_delta := 0, last_line_i := 0 }

/-- A one-context vblock around `c`, on text line 3 of a v5+ container. -/
def vb1 (c : MtfContext) : VBlockPiz :=
  { txt_data := [], seq_len := 0, line_i := 3, is_v5_or_above := true, contexts := [c] }

/-- A store-enabled context with `last_value = 77` and a stale `last_delta`. -/
def ctxStore77 : MtfContext := { ctx0 with store_value := true, last_value := 77, last_delta := 9 }

/-! # Theorems -/

/-! ## Helper lemmas about the state operations -/

theorem getCtx_modifyCtx_self (vb : VBlockPiz) (i : Nat) (f : MtfContext → MtfContext) :
    (modifyCtx vb i f).contexts[i]? = (vb.contexts[i]?).map f := by
  unfold modifyCtx
  cases h : vb.contexts[i]? with
  | none => simp [h]
  | some c =>
    have hlt : i < vb.contexts.length := by
      by_contra hge
      rw [List.getElem?_eq_none (by omega)] at h
      exact Option.noConfusion h
    simp [h, List.getElem?_set_self hlt]

@[simp] theorem modifyCtx_txt (vb : VBlockPiz) (i : Nat) (f : MtfContext → MtfContext) :
    (modifyCtx vb i f).txt_data = vb.txt_data := rfl

@[simp] theorem modifyCtx_line_i (vb : VBlockPiz) (i : Nat) (f : MtfContext → MtfContext) :
    (modifyCtx vb i f).line_i = vb.line_i := rfl

@[simp] theorem modifyCtx_seq_len (vb : VBlockPiz) (i : Nat) (f : MtfContext → MtfContext) :
    (modifyCtx vb i f).seq_len = vb.seq_len := rfl

@[simp] theorem modifyCtx_is_v5 (vb : VBlockPiz) (i : Nat) (f : MtfContext → MtfContext) :
    (modifyCtx vb i f).is_v5_or_above = vb.is_v5_or_above := rfl

@[simp] theorem reconstructBytes_contexts (vb : VBlockPiz) (s : List Nat) :
    (reconstructBytes vb s).contexts = vb.contexts := rfl

@[simp] theorem reconstructBytes_txt (vb : VBlockPiz) (s : List Nat) :
    (reconstructBytes vb s).txt_data = vb.txt_data ++ s := rfl

@[simp] theorem reconstructBytes_line_i (vb : VBlockPiz) (s : List Nat) :
    (reconstructBytes vb s).line_i = vb.line_i := rfl

/-! ## Claim C5: the interlace transform round-trips and is order-preserving -/

/-- C5 counterexample: the most negative `int8` value does not round-trip.
`interlace (-128) = 255`, and `DEINTERLACE` at width 8 computes
`-(int8_t)(255/2 + 1) = -(int8_t)128 = -(-128) = +128` (the `int8_t` value is
promoted to `int` before the unary minus), not `-128`. -/
theorem c5_interlace_roundtrip_cex :
    DEINTERLACE 8 (interlace (-128)) = 128 ∧ DEINTERLACE 8 (interlace (-128)) ≠ -128 := by
  decide

/-- C5 (amended): for `v` representable in the signed width `w ∈ {8,16,32,64}`,
`DEINTERLACE w (interlace v) = v`, *except* at `v = -2^(w-1)` for the widths 8
and 16, where C integer promotion makes the decoder return `+2^(w-1)` (at
widths 32 and 64 the same input round-trips via the two's-complement wrap of an
overflowing negation).  The interlaced encoding preserves the ordering of
magnitudes within each sign. -/
theorem c5_interlace_roundtrip_amended :
    (∀ w : Nat, w = 8 ∨ w = 16 ∨ w = 32 ∨ w = 64 → ∀ v : Int,
        -(2 ^ (w - 1)) ≤ v → v < 2 ^ (w - 1) → (w ≤ 16 → v ≠ -(2 ^ (w - 1))) →
        DEINTERLACE w (interlace v) = v) ∧
    (∀ v₁ v₂ : Int, 0 ≤ v₁ → 0 ≤ v₂ → (interlace v₁ ≤ interlace v₂ ↔ v₁ ≤ v₂)) ∧
    (∀ v₁ v₂ : Int, v₁ < 0 → v₂ < 0 → (interlace v₁ ≤ interlace v₂ ↔ -v₁ ≤ -v₂)) := by
  refine ⟨?_, ?_, ?_⟩
  · intro w hw v hlo hhi hexc
    rcases hw with rfl | rfl | rfl | rfl <;>
      · simp only [DEINTERLACE, interlace, toSigned, wrapSigned] at *
        norm_num at *
        split_ifs at * <;> omega
  · intro v₁ v₂ h₁ h₂
    simp only [interlace, if_pos h₁, if_pos h₂]
    omega
  · intro v₁ v₂ h₁ h₂
    simp only [interlace, if_neg (by omega : ¬ (0:Int) ≤ v₁), if_neg (by omega : ¬ (0:Int) ≤ v₂)]
    omega

/-! ## Claim C10: the empty snip is a no-op -/

/-- C10: `piz_reconstruct_one_snip` on an empty snip (`snip_len == 0`, src/piz.c
line 228) returns immediately with the vblock state — `txt_data`, every
context's `last_value`, `last_delta`, `last_line_i` and decode cursors —
entirely unchanged (`.ok vb` is the very input state).  The successor-fuel form
only says the fuel bound of the shallow embedding has not already run out. -/
theorem c10_empty_snip_noop :
    ∀ (fuel : Nat) (vb : VBlockPiz) (i : Nat),
      piz_reconstruct_one_snip (fuel + 1) vb i [] = .ok vb :=
  fun _ _ _ => rfl

/-! ## Claim C9: the literal-snip (default) path -/

/-- C9: in the default (literal-snip) path with `CTX_FL_STORE_VALUE` in effect
(v5+ container), the snip is appended to `txt_data`; `last_value` is updated —
to the parsed value — if and only if `strtoull` consumes exactly `snip_len`
characters, and is left unchanged otherwise; `last_delta` is always reset to 0;
`last_line_i` is stamped; the local cursor does not move. -/
theorem c9_literal_store_path (fuel : Nat) (vb : VBlockPiz) (i : Nat) (ctx : MtfContext)
    (c0 : Nat) (rest : List Nat)
    (hget : vb.contexts[i]? = some ctx)
    (hstore : ctx.store_value = true)
    (hv5 : vb.is_v5_or_above = true)
    (h1 : c0 ≠ SNIP_LOOKUP) (h2 : c0 ≠ SNIP_OTHER_LOOKUP) (h3 : c0 ≠ SNIP_SELF_DELTA)
    (h4 : c0 ≠ SNIP_OTHER_DELTA) (h5 : c0 ≠ SNIP_STRUCTURED) (h6 : c0 ≠ SNIP_SPECIAL)
    (h7 : c0 ≠ SNIP_REDIRECTION) (h8 : c0 ≠ SNIP_DONT_STORE) :
    ∃ vb' ctx',
      piz_reconstruct_one_snip (fuel + 1) vb i (c0 :: rest) = .ok vb' ∧
      vb'.contexts[i]? = some ctx' ∧
      vb'.txt_data = vb.txt_data ++ (c0 :: rest) ∧
      ctx'.last_delta = 0 ∧
      ctx'.last_line_i = vb.line_i ∧
      ctx'.next_local = ctx.next_local ∧
      ctx'.last_value =
        (if (cStrtoull (c0 :: rest)).2 = (c0 :: rest).length
         then toSigned 64 (cStrtoull (c0 :: rest)).1 else ctx.last_value) := by
  have hrun : piz_reconstruct_one_snip (fuel + 1) vb i (c0 :: rest) =
      .ok (finishSnip
            (modifyCtx (reconstructBytes vb (c0 :: rest)) i (fun c => { c with last_delta := 0 }))
            i true
            (if ctx.store_value && decide ((cStrtoull (c0 :: rest)).2 = (c0 :: rest).length)
             then some (toSigned 64 (cStrtoull (c0 :: rest)).1) else none)) := by
    simp only [piz_reconstruct_one_snip, hget, h1, h2, h3, h4, h5, h6, h7, h8, hv5, hstore]
    simp
  by_cases hc : (cStrtoull (c0 :: rest)).2 = rest.length + 1
  · refine ⟨_, { ctx with last_delta := 0,
                          last_value := toSigned 64 (cStrtoull (c0 :: rest)).1,
                          last_line_i := vb.line_i }, hrun, ?_, ?_, ?_, ?_, ?_, ?_⟩ <;>
      simp [finishSnip, getCtx_modifyCtx_self, hget, hstore, hc]
  · refine ⟨_, { ctx with last_delta := 0, last_line_i := vb.line_i },
      hrun, ?_, ?_, ?_, ?_, ?_, ?_⟩ <;>
      simp [finishSnip, getCtx_modifyCtx_self, hget, hstore, hc]

/-- C9 witness: the theorem applied at a concrete state — snip `"12"`
(bytes `[49, 50]`) on a store-enabled context with `last_value = 77`. -/
theorem c9_literal_store_path_witness :
    ∃ vb' ctx',
      piz_reconstruct_one_snip 1 (vb1 ctxStore77) 0 [49, 50] = .ok vb' ∧
      vb'.contexts[0]? = some ctx' ∧
      vb'.txt_data = (vb1 ctxStore77).txt_data ++ [49, 50] ∧
      ctx'.last_delta = 0 ∧
      ctx'.last_line_i = (vb1 ctxStore77).line_i ∧
      ctx'.next_local = ctxStore77.next_local ∧
      ctx'.last_value =
        (if (cStrtoull [49, 50]).2 = ([49, 50] : List Nat).length
         then toSigned 64 (cStrtoull [49, 50]).1 else ctxStore77.last_value) :=
  c9_literal_store_path 0 (vb1 ctxStore77) 0 ctxStore77 49 [50]
    rfl rfl rfl
    (by decide) (by decide) (by decide) (by decide) (by decide) (by decide) (by decide)
    (by decide)

/-! ## Claim C2: bounds safety of the snip-interpreter decoders -/

theorem piz_reconstruct_from_delta_error (vb : VBlockPiz) (i : Nat) (s : List Nat)
    (e : PizErr) (h : piz_reconstruct_from_delta vb i s = .error e) : e = .assertFail := by
  unfold piz_reconstruct_from_delta at h
  cases hget : vb.contexts[i]? with
  | none =>
    simp only [hget] at h
    injection h with h'
    exact h'.symm
  | some c =>
    simp only [hget] at h
    exact absurd h (by simp)

theorem piz_reconstruct_from_local_int_error (vb : VBlockPiz) (i : Nat) (sep : Nat)
    (e : PizErr) (h : piz_reconstruct_from_local_int vb i sep = .error e) : e = .assertFail := by
  unfold piz_reconstruct_from_local_int at h
  cases hget : vb.contexts[i]? with
  | none =>
    simp only [hget] at h
    injection h with h'
    exact h'.symm
  | some c =>
    simp only [hget] at h
    repeat' split at h
    all_goals first
      | (injection h with h'; exact h'.symm)
      | exact absurd h (by simp)

theorem piz_reconstruct_from_local_sequence_error (vb : VBlockPiz) (i : Nat) (snip : List Nat)
    (e : PizErr) (h : piz_reconstruct_from_local_sequence vb i snip = .error e) :
    e = .assertFail ∨ e = .oob := by
  unfold piz_reconstruct_from_local_sequence at h
  cases hget : vb.contexts[i]? with
  | none =>
    simp only [hget] at h
    injection h with h'
    exact .inl h'.symm
  | some c =>
    simp only [hget] at h
    repeat' split at h
    all_goals first
      | (exact .inl (by injection h with h'; exact h'.symm))
      | (exact .inr (by injection h with h'; exact h'.symm))
      | exact absurd h (by simp)

/-- Constructor-clash helpers keeping the large interpreter states cheap to
discharge. -/
theorem ok_ne_error {a : Type} (x : a) (e : PizErr) :
    (Except.ok x : Except PizErr a) ≠ .error e :=
  fun hco => Except.noConfusion hco

theorem error_ne_error {a : Type} {e e' : PizErr} (h : e ≠ e') :
    (Except.error e : Except PizErr a) ≠ .error e' :=
  fun hco => h (by injection hco)

theorem getCtx_ite_reconstruct (p : Prop) [Decidable p] (vb : VBlockPiz) (s : List Nat)
    (i : Nat) : (if p then reconstructBytes vb s else vb).contexts[i]? = vb.contexts[i]? := by
  split <;> rfl

theorem localRemaining_ite_reconstruct (p : Prop) [Decidable p] (vb : VBlockPiz)
    (s : List Nat) (i : Nat) :
    localRemaining (if p then reconstructBytes vb s else vb) i = localRemaining vb i := by
  split <;> rfl

theorem localRemaining_modifyCtx (vb : VBlockPiz) (i : Nat) (f : MtfContext → MtfContext) :
    localRemaining (modifyCtx vb i f) i =
      match vb.contexts[i]? with
      | some c => (f c).local_buf.length - (f c).next_local
      | none => 0 := by
  simp only [localRemaining, getCtx_modifyCtx_self]
  cases vb.contexts[i]? <;> rfl

theorem remaining_sub_aux (len next stop f : Nat) (h1 : len - next < f + 1)
    (h2 : stop < len) (h3 : next ≤ stop) : len - (stop + 1) < f := by omega

theorem localRemaining_advance_lt (c : MtfContext) (vb : VBlockPiz) (i f stop : Nat)
    (hget : vb.contexts[i]? = some c)
    (hrem : localRemaining vb i < f + 1)
    (hstop : stop < c.local_buf.length) (hge : c.next_local ≤ stop) :
    localRemaining (modifyCtx vb i (fun x => { x with next_local := stop + 1 })) i < f := by
  rw [localRemaining_modifyCtx]
  simp only [localRemaining, hget] at hrem
  simp only [hget]
  exact remaining_sub_aux c.local_buf.length c.next_local stop f hrem hstop hge

/-- The bounds-checked path of `piz_reconstruct_from_local_sequence`: when the
cursor is strictly inside `local`, the unguarded read of
`local.data[next_local]` is in fact in bounds, and the sequence read is guarded
by an explicit check, so no out-of-bounds access occurs. -/
theorem piz_reconstruct_from_local_sequence_ne_oob (vb : VBlockPiz) (i : Nat)
    (snip : List Nat) (c : MtfContext) (hget : vb.contexts[i]? = some c)
    (hlt : c.next_local < c.local_buf.length) :
    piz_reconstruct_from_local_sequence vb i snip ≠ .error .oob := by
  unfold piz_reconstruct_from_local_sequence
  simp only [hget, List.getElem?_eq_getElem hlt]
  repeat' split
  all_goals first
    | exact ok_ne_error _ _
    | exact error_ne_error (by decide)

/-- `piz_reconstruct_from_local_text` performs only bounds-checked reads
itself; an out-of-bounds outcome could only come from the nested interpreter
call.  Stated over the parameterized body. -/
theorem piz_reconstruct_from_local_text_go_ne_oob (f : Nat) (vb : VBlockPiz) (i : Nat)
    (h : ∀ c, vb.contexts[i]? = some c → c.ltype ≠ .sequence)
    (ih : ∀ (vb' : VBlockPiz) (snip : List Nat),
        (∀ c, vb'.contexts[i]? = some c → c.ltype ≠ .sequence) →
        piz_reconstruct_one_snip f vb' i snip ≠ .error .oob) :
    piz_reconstruct_from_local_text_go (piz_reconstruct_one_snip f) vb i ≠ .error .oob := by
  cases hget : vb.contexts[i]? with
  | none =>
    simp only [piz_reconstruct_from_local_text_go, hget]
    exact error_ne_error (by decide)
  | some c =>
    simp only [piz_reconstruct_from_local_text_go, hget]
    split
    · apply ih
      intro c' hc'
      rw [getCtx_modifyCtx_self, hget] at hc'
      simp only [Option.map_some'] at hc'
      cases hc'
      exact h c hget
    · exact error_ne_error (by decide)

set_option maxHeartbeats 1000000 in
/-- The interpreter never reads out of bounds while the context it operates on
does not have the SEQUENCE ltype (the recursion stays within that context:
`OTHER_*`/`REDIRECTION`/`STRUCTURED`/`SPECIAL` escape to code outside src/). -/
theorem piz_reconstruct_one_snip_ne_oob :
    ∀ (fuel : Nat) (vb : VBlockPiz) (i : Nat) (snip : List Nat),
      (∀ c, vb.contexts[i]? = some c → c.ltype ≠ .sequence) →
      piz_reconstruct_one_snip fuel vb i snip ≠ .error .oob := by
  intro fuel
  induction fuel with
  | zero => intro vb i snip _; exact error_ne_error (by decide)
  | succ f ih =>
    intro vb i snip h
    match snip with
    | [] => exact ok_ne_error _ _
    | c0 :: rest =>
      cases hget : vb.contexts[i]? with
      | none => simp only [piz_reconstruct_one_snip, hget]; exact error_ne_error (by decide)
      | some ctx =>
        have hseq := h ctx hget
        simp only [piz_reconstruct_one_snip, hget]
        rw [if_neg hseq]
        split
        -- LOOKUP / OTHER_LOOKUP
        case isTrue =>
          split
          case isTrue => exact error_ne_error (by decide)
          case isFalse =>
            split
            case isTrue =>    -- integer ltype
              split
              case h_1 e heq =>
                intro hco
                rw [Except.error.injEq] at hco
                subst hco
                cases piz_reconstruct_from_local_int_error _ _ _ _ heq
              case h_2 => exact ok_ne_error _ _
            case isFalse =>   -- TEXT-style local (SEQUENCE was excluded above)
              split
              case h_1 e heq =>
                intro hco
                rw [Except.error.injEq] at hco
                subst hco
                refine absurd heq (piz_reconstruct_from_local_text_go_ne_oob f _ i ?_ ?_)
                · intro c hc
                  rw [getCtx_ite_reconstruct, hget] at hc
                  cases hc
                  exact hseq
                · intro vb' snip' h'; exact ih vb' i snip' h'
              case h_2 => exact ok_ne_error _ _
        case isFalse =>
          -- SELF_DELTA
          split
          case isTrue =>
            split
            case h_1 e heq =>
              intro hco
              rw [Except.error.injEq] at hco
              subst hco
              cases piz_reconstruct_from_delta_error _ _ _ _ heq
            case h_2 => exact ok_ne_error _ _
          case isFalse =>
            split
            case isTrue => exact error_ne_error (by decide)     -- OTHER_DELTA
            case isFalse =>
              split
              case isTrue => exact error_ne_error (by decide)   -- STRUCTURED
              case isFalse =>
                split
                case isTrue =>                                   -- SPECIAL
                  split <;> exact error_ne_error (by decide)
                case isFalse =>
                  split
                  case isTrue => exact error_ne_error (by decide)  -- REDIRECTION
                  case isFalse =>
                    -- default path
                    split
                    case isTrue =>    -- pre-v5 POS delta
                      split
                      case h_1 e heq =>
                        intro hco
                        rw [Except.error.injEq] at hco
                        subst hco
                        cases piz_reconstruct_from_delta_error _ _ _ _ heq
                      case h_2 => exact ok_ne_error _ _
                    case isFalse =>
                      split
                      case isTrue => exact error_ne_error (by decide)   -- pre-v5 INFO
                      case isFalse => exact ok_ne_error _ _             -- literal snip

/-- Fuel adequacy of `piz_reconstruct_from_local_text`: the nested interpreter
call starts past the separator, so the callee sees strictly less remaining
local data. -/
theorem piz_reconstruct_from_local_text_go_ne_fuel (f : Nat) (vb : VBlockPiz) (i : Nat)
    (hrem : localRemaining vb i < f + 1)
    (ih : ∀ (vb' : VBlockPiz) (snip : List Nat), localRemaining vb' i < f →
        piz_reconstruct_one_snip f vb' i snip ≠ .error .outOfFuel) :
    piz_reconstruct_from_local_text_go (piz_reconstruct_one_snip f) vb i ≠
      .error .outOfFuel := by
  cases hget : vb.contexts[i]? with
  | none =>
    simp only [piz_reconstruct_from_local_text_go, hget]
    exact error_ne_error (by decide)
  | some c =>
    simp only [piz_reconstruct_from_local_text_go, hget]
    split
    case isTrue hstop =>
      apply ih
      exact localRemaining_advance_lt c vb i f _ hget hrem hstop (Nat.le_add_right _ _)
    case isFalse => exact error_ne_error (by decide)

set_option maxHeartbeats 1000000 in
/-- Fuel adequacy of the interpreter: any fuel above the remaining local data
of the operated context rules out `outOfFuel` — each recursion level consumes
at least one local byte, so interpretation of one snip terminates. -/
theorem piz_reconstruct_one_snip_ne_fuel :
    ∀ (fuel : Nat) (vb : VBlockPiz) (i : Nat) (snip : List Nat),
      localRemaining vb i < fuel →
      piz_reconstruct_one_snip fuel vb i snip ≠ .error .outOfFuel := by
  intro fuel
  induction fuel with
  | zero => intro vb i snip hrem; omega
  | succ f ih =>
    intro vb i snip hrem
    match snip with
    | [] => exact ok_ne_error _ _
    | c0 :: rest =>
      cases hget : vb.contexts[i]? with
      | none => simp only [piz_reconstruct_one_snip, hget]; exact error_ne_error (by decide)
      | some ctx =>
        simp only [piz_reconstruct_one_snip, hget]
        split
        case isTrue =>
          split
          case isTrue => exact error_ne_error (by decide)
          case isFalse =>
            split
            case isTrue =>
              split
              case h_1 e heq =>
                intro hco
                rw [Except.error.injEq] at hco
                subst hco
                cases piz_reconstruct_from_local_int_error _ _ _ _ heq
              case h_2 => exact ok_ne_error _ _
            case isFalse =>
              by_cases hsq : ctx.ltype = CtxLtype.sequence
              · rw [if_pos hsq]
                split
                next e heq =>
                  intro hco
                  rw [Except.error.injEq] at hco
                  subst hco
                  rcases piz_reconstruct_from_local_sequence_error _ _ _ _ heq with h' | h' <;>
                    cases h'
                next => exact ok_ne_error _ _
              · rw [if_neg hsq]
                split
                next e heq =>
                  intro hco
                  rw [Except.error.injEq] at hco
                  subst hco
                  refine absurd heq (piz_reconstruct_from_local_text_go_ne_fuel f _ i ?_ ?_)
                  · rw [localRemaining_ite_reconstruct]
                    exact hrem
                  · intro vb' snip' h'; exact ih vb' i snip' h'
                next => exact ok_ne_error _ _
        case isFalse =>
          split
          case isTrue =>
            split
            case h_1 e heq =>
              intro hco
              rw [Except.error.injEq] at hco
              subst hco
              cases piz_reconstruct_from_delta_error _ _ _ _ heq
            case h_2 => exact ok_ne_error _ _
          case isFalse =>
            split
            case isTrue => exact error_ne_error (by decide)
            case isFalse =>
              split
              case isTrue => exact error_ne_error (by decide)
              case isFalse =>
                split
                case isTrue => split <;> exact error_ne_error (by decide)
                case isFalse =>
                  split
                  case isTrue => exact error_ne_error (by decide)
                  case isFalse =>
                    split
                    case isTrue =>
                      split
                      case h_1 e heq =>
                        intro hco
                        rw [Except.error.injEq] at hco
                        subst hco
                        cases piz_reconstruct_from_delta_error _ _ _ _ heq
                      case h_2 => exact ok_ne_error _ _
                    case isFalse =>
                      split
                      case isTrue => exact error_ne_error (by decide)
                      case isFalse => exact ok_ne_error _ _

/-- C2 counterexample: a `LOOKUP` snip on a SEQUENCE-ltype context whose local
stream is exhausted makes `piz_reconstruct_from_local_sequence` read
`local.data[next_local]` (src/piz.c line 126) with **no** preceding bounds
check — an out-of-bounds read, refuting "every advance of a decode cursor is
preceded by an explicit bounds check". -/
theorem c2_decoder_bounds_cex :
    piz_reconstruct_one_snip 1 (vb1 { ctx0 with ltype := .sequence }) 0 [SNIP_LOOKUP] =
      .error .oob := rfl

/-- C2 (amended): the integer decoder and the text decoder precede every read
and every cursor advance with an explicit bounds check, and so never read out
of bounds; the *sequence* decoder's one-byte `'*'` special case reads
`local[next_local]` unguarded, so it is bounds-safe only under the precondition
`next_local < local.len`; the interpreter as a whole never reads out of bounds
on contexts whose ltype is not SEQUENCE, and it terminates — any fuel above the
remaining local data rules out fuel exhaustion. -/
theorem c2_decoder_bounds_amended :
    (∀ (vb : VBlockPiz) (i sep : Nat),
        piz_reconstruct_from_local_int vb i sep ≠ .error .oob) ∧
    (∀ (vb : VBlockPiz) (i : Nat) (snip : List Nat) (c : MtfContext),
        vb.contexts[i]? = some c → c.next_local < c.local_buf.length →
        piz_reconstruct_from_local_sequence vb i snip ≠ .error .oob) ∧
    (∀ (fuel : Nat) (vb : VBlockPiz) (i : Nat) (c : MtfContext),
        vb.contexts[i]? = some c → c.ltype ≠ .sequence →
        piz_reconstruct_from_local_text fuel vb i ≠ .error .oob) ∧
    (∀ (fuel : Nat) (vb : VBlockPiz) (i : Nat) (snip : List Nat),
        (∀ c, vb.contexts[i]? = some c → c.ltype ≠ .sequence) →
        piz_reconstruct_one_snip fuel vb i snip ≠ .error .oob) ∧
    (∀ (fuel : Nat) (vb : VBlockPiz) (i : Nat) (snip : List Nat),
        localRemaining vb i < fuel →
        piz_reconstruct_one_snip fuel vb i snip ≠ .error .outOfFuel) := by
  refine ⟨?_, ?_, ?_, ?_, ?_⟩
  · intro vb i sep hco
    cases piz_reconstruct_from_local_int_error _ _ _ _ hco
  · exact fun vb i snip c hget hlt => piz_reconstruct_from_local_sequence_ne_oob vb i snip c hget hlt
  · intro fuel vb i c hget hne
    unfold piz_reconstruct_from_local_text
    refine piz_reconstruct_from_local_text_go_ne_oob fuel vb i ?_ ?_
    · intro c' hc'; rw [hget] at hc'; cases hc'; exact hne
    · intro vb' snip' h'; exact piz_reconstruct_one_snip_ne_oob fuel vb' i snip' h'
  · exact piz_reconstruct_one_snip_ne_oob
  · exact piz_reconstruct_one_snip_ne_fuel

/-- C2 witness: the amended theorem's five conjuncts applied at concrete
states. -/
theorem c2_decoder_bounds_witness :
    piz_reconstruct_from_local_int (vb1 ctx0) 0 0 ≠ .error .oob ∧
    piz_reconstruct_from_local_sequence
      (vb1 { ctx0 with ltype := .sequence, local_buf := [65] }) 0 [] ≠ .error .oob ∧
    piz_reconstruct_from_local_text 1 (vb1 ctx0) 0 ≠ .error .oob ∧
    piz_reconstruct_one_snip 1 (vb1 ctx0) 0 [77] ≠ .error .oob ∧
    piz_reconstruct_one_snip 1 (vb1 ctx0) 0 [77] ≠ .error .outOfFuel :=
  ⟨c2_decoder_bounds_amended.1 (vb1 ctx0) 0 0,
   c2_decoder_bounds_amended.2.1 _ 0 [] { ctx0 with ltype := .sequence, local_buf := [65] }
     rfl (by decide),
   c2_decoder_bounds_amended.2.2.1 1 (vb1 ctx0) 0 ctx0 rfl (by decide),
   c2_decoder_bounds_amended.2.2.2.1 1 (vb1 ctx0) 0 [77]
     (by intro c hc; simp [vb1] at hc; rw [← hc]; decide),
   c2_decoder_bounds_amended.2.2.2.2 1 (vb1 ctx0) 0 [77] (by decide)⟩

/-! ## Claim C3: SELF_DELTA semantics -/

/-- C3 counterexample: with `CTX_FL_STORE_VALUE` *off*, a `SELF_DELTA` snip
with payload `"3"` on a context with `last_value = 5` reconstructs `8` but does
**not** store it — `last_value` stays `5`, not `5 + 3` as the claim asserts
unconditionally. -/
theorem c3_self_delta_cex :
    (piz_reconstruct_one_snip 1 (vb1 { ctx0 with last_value := 5 }) 0
        [SNIP_SELF_DELTA, 51]).map (fun vb => vb.contexts.map (·.last_value)) =
      .ok [5] ∧ (5 : Int) ≠ 5 + 3 :=
  ⟨rfl, by decide⟩

/-- C3 (amended): interpreting a `SELF_DELTA` snip on a context with
`last_value = v`, `last_delta = d` reconstructs (appends the decimal rendering
of) `v + k` for an ASCII-integer payload parsing as `k`, `-v` for the payload
`"-"`, and `v - d` for the empty payload; in each case the computed value is
stored into `last_value` *when the context's `CTX_FL_STORE_VALUE` flag is set*
(and `last_value` is unchanged otherwise), `last_delta` becomes the applied
delta, and `last_line_i` is stamped. -/
theorem c3_self_delta_amended (fuel : Nat) (vb : VBlockPiz) (i : Nat) (ctx : MtfContext)
    (hget : vb.contexts[i]? = some ctx) :
    (∀ (s : List Nat) (k : Int), s ≠ [] → s ≠ [45] → cStrtoullAsInt64 s = k →
      ∃ vb' ctx',
        piz_reconstruct_one_snip (fuel + 1) vb i (SNIP_SELF_DELTA :: s) = .ok vb' ∧
        vb'.contexts[i]? = some ctx' ∧
        vb'.txt_data = vb.txt_data ++ intDecBytes (ctx.last_value + k) ∧
        ctx'.last_delta = k ∧
        ctx'.last_value = (if ctx.store_value then ctx.last_value + k else ctx.last_value) ∧
        ctx'.last_line_i = vb.line_i) ∧
    (∃ vb' ctx',
        piz_reconstruct_one_snip (fuel + 1) vb i [SNIP_SELF_DELTA, 45] = .ok vb' ∧
        vb'.contexts[i]? = some ctx' ∧
        vb'.txt_data = vb.txt_data ++ intDecBytes (-ctx.last_value) ∧
        ctx'.last_delta = -2 * ctx.last_value ∧
        ctx'.last_value = (if ctx.store_value then -ctx.last_value else ctx.last_value) ∧
        ctx'.last_line_i = vb.line_i) ∧
    (∃ vb' ctx',
        piz_reconstruct_one_snip (fuel + 1) vb i [SNIP_SELF_DELTA] = .ok vb' ∧
        vb'.contexts[i]? = some ctx' ∧
        vb'.txt_data = vb.txt_data ++ intDecBytes (ctx.last_value - ctx.last_delta) ∧
        ctx'.last_delta = -ctx.last_delta ∧
        ctx'.last_value =
          (if ctx.store_value then ctx.last_value - ctx.last_delta else ctx.last_value) ∧
        ctx'.last_line_i = vb.line_i) := by
  refine ⟨?_, ?_, ?_⟩
  · intro s k hs0 hs45 hk
    have hrun : piz_reconstruct_one_snip (fuel + 1) vb i (SNIP_SELF_DELTA :: s) =
        .ok (finishSnip
              (reconstructBytes (modifyCtx vb i (fun c => { c with last_delta := k }))
                (intDecBytes (ctx.last_value + k)))
              i ctx.store_value (some (ctx.last_value + k))) := by
      simp [piz_reconstruct_one_snip, hget, piz_reconstruct_from_delta, hs0, hs45, hk,
            SNIP_LOOKUP, SNIP_OTHER_LOOKUP, SNIP_SELF_DELTA]
    cases hst : ctx.store_value
    · exact ⟨_, { ctx with last_delta := k, last_line_i := vb.line_i }, hrun,
        by simp [finishSnip, getCtx_modifyCtx_self, hget, hst],
        by simp [finishSnip, hst], by simp [hst], by simp [hst], rfl⟩
    · exact ⟨_, { ctx with last_delta := k, last_value := ctx.last_value + k, last_line_i := vb.line_i }, hrun,
        by simp [finishSnip, getCtx_modifyCtx_self, hget, hst],
        by simp [finishSnip, hst], by simp [hst], by simp [hst], rfl⟩
  · have hval : ctx.last_value + -2 * ctx.last_value = -ctx.last_value := by ring
    have hrun : piz_reconstruct_one_snip (fuel + 1) vb i [SNIP_SELF_DELTA, 45] =
        .ok (finishSnip
              (reconstructBytes
                (modifyCtx vb i (fun c => { c with last_delta := -2 * ctx.last_value }))
                (intDecBytes (-ctx.last_value)))
              i ctx.store_value (some (-ctx.last_value))) := by
      simp [piz_reconstruct_one_snip, hget, piz_reconstruct_from_delta,
            SNIP_LOOKUP, SNIP_OTHER_LOOKUP, SNIP_SELF_DELTA]
      ring_nf
    cases hst : ctx.store_value
    · exact ⟨_, { ctx with last_delta := -2 * ctx.last_value, last_line_i := vb.line_i }, hrun,
        by simp [finishSnip, getCtx_modifyCtx_self, hget, hst],
        by simp [finishSnip, hst], by simp [hst], by simp [hst], rfl⟩
    · exact ⟨_, { ctx with last_delta := -2 * ctx.last_value, last_value := -ctx.last_value, last_line_i := vb.line_i }, hrun,
        by simp [finishSnip, getCtx_modifyCtx_self, hget, hst],
        by simp [finishSnip, hst], by simp [hst], by simp [hst], rfl⟩
  · have hval : ctx.last_value + -ctx.last_delta = ctx.last_value - ctx.last_delta := by ring
    have hrun : piz_reconstruct_one_snip (fuel + 1) vb i [SNIP_SELF_DELTA] =
        .ok (finishSnip
              (reconstructBytes
                (modifyCtx vb i (fun c => { c with last_delta := -ctx.last_delta }))
                (intDecBytes (ctx.last_value - ctx.last_delta)))
              i ctx.store_value (some (ctx.last_value - ctx.last_delta))) := by
      simp [piz_reconstruct_one_snip, hget, piz_reconstruct_from_delta,
            SNIP_LOOKUP, SNIP_OTHER_LOOKUP, SNIP_SELF_DELTA]
      ring_nf
    cases hst : ctx.store_value
    · exact ⟨_, { ctx with last_delta := -ctx.last_delta, last_line_i := vb.line_i }, hrun,
        by simp [finishSnip, getCtx_modifyCtx_self, hget, hst],
        by simp [finishSnip, hst], by simp [hst], by simp [hst], rfl⟩
    · exact ⟨_, { ctx with last_delta := -ctx.last_delta, last_value := ctx.last_value - ctx.last_delta, last_line_i := vb.line_i }, hrun,
        by simp [finishSnip, getCtx_modifyCtx_self, hget, hst],
        by simp [finishSnip, hst], by simp [hst], by simp [hst], rfl⟩

/-- C3 witness: the amended theorem applied to a concrete store-enabled context
(`v = 77, d = 9`) with payload `"3"`. -/
theorem c3_self_delta_amended_witness :
    ∃ vb' ctx',
      piz_reconstruct_one_snip 1 (vb1 ctxStore77) 0 (SNIP_SELF_DELTA :: [51]) = .ok vb' ∧
      vb'.contexts[0]? = some ctx' ∧
      vb'.txt_data = (vb1 ctxStore77).txt_data ++ intDecBytes (ctxStore77.last_value + 3) ∧
      ctx'.last_delta = 3 ∧
      ctx'.last_value =
        (if ctxStore77.store_value then ctxStore77.last_value + 3
         else ctxStore77.last_value) ∧
      ctx'.last_line_i = (vb1 ctxStore77).line_i :=
  (c3_self_delta_amended 0 (vb1 ctxStore77) 0 ctxStore77 rfl).1 [51] 3
    (by decide) (by decide) (by decide)

/-! ## Claim C4: ONE_UP emission in the b250 generator -/

theorem b250_loop_length (is_gt : Bool) :
    ∀ (idxs : List Base250) (prev : Int) (i0 : Nat),
      (zip_generate_b250_loop is_gt prev i0 idxs).length = idxs.length := by
  intro idxs
  induction idxs with
  | nil => intro prev i0; rfl
  | cons z rest ih =>
    intro prev i0
    simp [zip_generate_b250_loop, ih]

theorem b250_loop_succ (is_gt : Bool) :
    ∀ (idxs : List Base250) (prev : Int) (i0 k : Nat) (y x : Base250),
      idxs[k]? = some y → idxs[k + 1]? = some x →
      (zip_generate_b250_loop is_gt prev i0 idxs)[k + 1]? =
        some (if x.n = y.n + 1 ∧ is_gt = false then .oneUp else .numerals x.numerals) := by
  intro idxs
  induction idxs with
  | nil => intro prev i0 k y x hy hx; simp at hy
  | cons z rest ih =>
    intro prev i0 k y x hy hx
    match k with
    | 0 =>
      rw [List.getElem?_cons_zero, Option.some.injEq] at hy
      subst hy
      rw [List.getElem?_cons_succ] at hx
      match rest, hx with
      | w :: rest', hx =>
        rw [List.getElem?_cons_zero, Option.some.injEq] at hx
        subst hx
        simp only [zip_generate_b250_loop, List.getElem?_cons_succ, List.getElem?_cons_zero,
          Option.some.injEq]
        by_cases hx1 : w.n = z.n + 1 <;> cases is_gt <;>
          (simp [hx1]; try omega)
    | k' + 1 =>
      rw [List.getElem?_cons_succ] at hy
      rw [List.getElem?_cons_succ] at hx
      simp only [zip_generate_b250_loop, List.getElem?_cons_succ]
      exact ih (z.n : Int) (i0 + 1) k' y x hy hx

/-- C4: in the generated b250 stream, the very first position always emits the
base-250 numerals of its word index (never ONE_UP — `i > 0` fails, matching
"j ≥ 2" of the 1-based claim); every later position `j` emits the ONE_UP
sentinel in place of the encoded index if and only if `i_j = i_{j-1} + 1` and
the context permits (emission disabled when the b250 section is the per-sample
genotype section), and emits the numerals of `i_j` otherwise; one token per
line. -/
theorem c4_one_up_emission :
    (∀ (is_gt : Bool) (idxs : List Base250) (x : Base250), idxs[0]? = some x →
        (zip_generate_b250_section is_gt idxs)[0]? = some (.numerals x.numerals)) ∧
    (∀ (is_gt : Bool) (idxs : List Base250) (k : Nat) (y x : Base250),
        idxs[k]? = some y → idxs[k + 1]? = some x →
        (zip_generate_b250_section is_gt idxs)[k + 1]? =
          some (if x.n = y.n + 1 ∧ is_gt = false then .oneUp else .numerals x.numerals)) ∧
    (∀ (is_gt : Bool) (idxs : List Base250),
        (zip_generate_b250_section is_gt idxs).length = idxs.length) := by
  refine ⟨?_, ?_, ?_⟩
  · intro is_gt idxs x hx
    match idxs with
    | [] => simp at hx
    | z :: rest =>
      rw [List.getElem?_cons_zero] at hx
      cases hx
      simp [zip_generate_b250_section, zip_generate_b250_loop]
  · intro is_gt idxs k y x hy hx
    exact b250_loop_succ is_gt idxs (-1) 0 k y x hy hx
  · intro is_gt idxs
    exact b250_loop_length is_gt idxs (-1) 0

/-- C4 witness: the theorem applied to the index sequence `[3, 4, 9]` — the
first position emits numerals, position 2 (= 3+1, permitted) emits ONE_UP,
position 3 (9 ≠ 4+1) emits numerals; in the genotype section ONE_UP is
suppressed. -/
theorem c4_one_up_emission_witness :
    (zip_generate_b250_section false [⟨3, [3]⟩, ⟨4, [4]⟩, ⟨9, [9]⟩])[0]? =
        some (.numerals [3]) ∧
    (zip_generate_b250_section false [⟨3, [3]⟩, ⟨4, [4]⟩, ⟨9, [9]⟩])[1]? =
        some (if (4 : Nat) = 3 + 1 ∧ false = false then .oneUp else .numerals [4]) ∧
    (zip_generate_b250_section true [⟨3, [3]⟩, ⟨4, [4]⟩, ⟨9, [9]⟩])[1]? =
        some (if (4 : Nat) = 3 + 1 ∧ true = false then .oneUp else .numerals [4]) ∧
    (zip_generate_b250_section false [⟨3, [3]⟩, ⟨4, [4]⟩, ⟨9, [9]⟩])[2]? =
        some (if (9 : Nat) = 4 + 1 ∧ false = false then .oneUp else .numerals [9]) :=
  ⟨c4_one_up_emission.1 false _ ⟨3, [3]⟩ rfl,
   c4_one_up_emission.2.1 false _ 0 ⟨3, [3]⟩ ⟨4, [4]⟩ rfl rfl,
   c4_one_up_emission.2.1 true _ 0 ⟨3, [3]⟩ ⟨4, [4]⟩ rfl rfl,
   c4_one_up_emission.2.1 false _ 1 ⟨4, [4]⟩ ⟨9, [9]⟩ rfl rfl⟩

/-! ## Claim C6: vblock text ends at the last record boundary -/

/-- C6 counterexample: on `c6txt` — one complete FASTQ record followed by a
record whose quality line begins with `'@'` — the reader's heuristic accepts
the `'\n'` at index 20 (the byte after it is `'@'`) and cuts there, but index
20 does **not** end a complete 4-line record group (index 11 is the last
position that does), so the vblock does not end at the last 4-line group
boundary as the claim states. -/
theorem c6_record_boundary_cex :
    txtfile_trim_vblock true c6txt = .ok (c6txt.take 21, c6txt.drop 21) ∧
    spec_fastq_group_boundary c6txt 20 = false ∧
    spec_fastq_group_boundary c6txt 11 = true ∧ (21 : Nat) ≠ 11 + 1 := by
  refine ⟨rfl, by decide, by decide, by decide⟩

/-- C6 (amended): the vblock text ends exactly after the last *accepted*
newline — for line-oriented formats the last `'\n'` among the bytes read; for
FASTQ the last `'\n'` accepted by the source's end-of-record heuristic
(`txtfile_fastq_is_end_of_line`: the following byte is `'@'`, or, at the very
end of the data, the preceding line is exactly `"+"`/`"+\r"`) — and the
remaining suffix bytes are moved to the head of the next vblock, no byte lost.
The heuristic does not always coincide with a 4-line record-group boundary
(see the counterexample). -/
theorem c6_record_boundary_amended :
    ∀ (isFastq : Bool) (txt : List Char) (j : Nat),
      txt[j]? = some '\n' →
      (isFastq = true → txtfile_fastq_is_end_of_line txt j = .ok true) →
      (∀ j', j < j' → txt[j']? = some '\n' →
          isFastq = true ∧ txtfile_fastq_is_end_of_line txt j' = .ok false) →
      txtfile_trim_vblock isFastq txt = .ok (txt.take (j + 1), txt.drop (j + 1)) ∧
      txt.take (j + 1) ++ txt.drop (j + 1) = txt := by
  intro isFastq txt j hj hfq hlast
  have hjlen : j < txt.length := by
    by_contra hge
    rw [List.getElem?_eq_none (by omega)] at hj
    exact Option.noConfusion hj
  refine ⟨?_, List.take_append_drop _ _⟩
  have key : ∀ k, j + 1 ≤ k → k ≤ txt.length →
      txtfile_trim_scan isFastq txt k = .ok (txt.take (j + 1), txt.drop (j + 1)) := by
    intro k hk
    induction k, hk using Nat.le_induction with
    | base =>
      intro _
      cases isFastq with
      | false => simp [txtfile_trim_scan, hj]
      | true => simp [txtfile_trim_scan, hj, hfq rfl]
    | succ k hk ih =>
      intro hk2
      by_cases hnl : txt[k]? = some '\n'
      · obtain ⟨hft, hffalse⟩ := hlast k (by omega) hnl
        subst hft
        simp [txtfile_trim_scan, hnl, hffalse, ih (by omega)]
      · simp [txtfile_trim_scan, hnl, ih (by omega)]
  exact key txt.length (by omega) le_rfl

/-- C6 witness: the amended theorem applied to a line-oriented buffer `"AB\n"`
(cut after its final newline) and to a FASTQ buffer holding one complete
record (cut after the record's last newline, accepted by the end-of-data
scan-back branch of the heuristic). -/
theorem c6_record_boundary_amended_witness :
    (txtfile_trim_vblock false "AB\n".toList =
        .ok (("AB\n".toList).take 3, ("AB\n".toList).drop 3) ∧
      ("AB\n".toList).take 3 ++ ("AB\n".toList).drop 3 = "AB\n".toList) ∧
    (txtfile_trim_vblock true "@a\nC\n+\nD\n".toList =
        .ok (("@a\nC\n+\nD\n".toList).take 9, ("@a\nC\n+\nD\n".toList).drop 9) ∧
      ("@a\nC\n+\nD\n".toList).take 9 ++ ("@a\nC\n+\nD\n".toList).drop 9 =
        "@a\nC\n+\nD\n".toList) :=
  ⟨c6_record_boundary_amended false "AB\n".toList 2 rfl
      (fun h => Bool.noConfusion h)
      (fun j' hlt hget => by
        have hlen : ("AB\n".toList).length = 3 := rfl
        rw [List.getElem?_eq_none (by omega)] at hget
        exact Option.noConfusion hget),
   c6_record_boundary_amended true "@a\nC\n+\nD\n".toList 8 rfl
      (fun _ => rfl)
      (fun j' hlt hget => by
        have hlen : ("@a\nC\n+\nD\n".toList).length = 9 := rfl
        rw [List.getElem?_eq_none (by omega)] at hget
        exact Option.noConfusion hget)⟩

/-! ## Claim C8: FASTA --grep carry-over across vblocks -/

theorem lastDescMatch_nil : lastDescMatch [] = none := rfl

theorem lastDescMatch_cons (l : FLine) (rest : List FLine) :
    lastDescMatch (l :: rest) =
      match lastDescMatch rest, l with
      | some m, _ => some m
      | none, .desc m => some m
      | none, _ => none := rfl

theorem lastDescMatch_append (a b : List FLine) :
    lastDescMatch (a ++ b) =
      match lastDescMatch b with
      | some m => some m
      | none => lastDescMatch a := by
  induction a with
  | nil =>
    rw [List.nil_append, lastDescMatch_nil]
    cases lastDescMatch b <;> rfl
  | cons l a' ih =>
    rw [List.cons_append, lastDescMatch_cons, ih, lastDescMatch_cons]
    cases lastDescMatch b <;> cases lastDescMatch a' <;> cases l <;> rfl

theorem hasDesc_cons (x : FLine) (rest : List FLine) :
    hasDesc (x :: rest) = (x.isDesc || hasDesc rest) := by
  simp [hasDesc]

theorem hasDesc_false_iff (l : List FLine) : hasDesc l = false ↔ lastDescMatch l = none := by
  induction l with
  | nil => simp [hasDesc, lastDescMatch_nil]
  | cons x rest ih =>
    rw [lastDescMatch_cons, hasDesc_cons]
    cases hx : lastDescMatch rest with
    | none =>
      rw [ih.mpr hx]
      cases x <;> simp [FLine.isDesc]
    | some m =>
      have hr : hasDesc rest = true := by
        by_contra hf
        rw [Bool.not_eq_true] at hf
        rw [ih.mp hf] at hx
        exact Option.noConfusion hx
      rw [hr]
      cases x <;> simp [FLine.isDesc]

theorem fasta_piz_final_flag_formula (lines : List FLine) :
    ∀ g, fasta_piz_final_flag g lines = ((lastDescMatch lines).map Bool.not).getD g := by
  induction lines with
  | nil => intro g; rfl
  | cons l rest ih =>
    intro g
    show fasta_piz_final_flag (fasta_piz_line g l).2 rest = _
    rw [ih, lastDescMatch_cons]
    cases h : lastDescMatch rest <;> cases l <;> simp [h, fasta_piz_line]

theorem fasta_piz_reconstruct_vb_get (lines : List FLine) :
    ∀ (g : Bool) (j : Nat) (l : FLine), lines[j]? = some l →
      (fasta_piz_reconstruct_vb g lines)[j]? =
        some (fasta_piz_line (fasta_piz_final_flag g (lines.take j)) l).1 := by
  induction lines with
  | nil => intro g j l h; simp at h
  | cons x rest ih =>
    intro g j l h
    match j with
    | 0 =>
      rw [List.getElem?_cons_zero, Option.some.injEq] at h
      subst h
      show ((fasta_piz_line g x).1 ::
        fasta_piz_reconstruct_vb (fasta_piz_line g x).2 rest)[0]? = _
      rw [List.getElem?_cons_zero]
      rfl
    | j' + 1 =>
      rw [List.getElem?_cons_succ] at h
      show ((fasta_piz_line g x).1 ::
        fasta_piz_reconstruct_vb (fasta_piz_line g x).2 rest)[j' + 1]? = _
      rw [List.getElem?_cons_succ, ih _ j' l h]
      rfl

theorem grepStepPrev_eq (prev : Bool) (v : List FLine) :
    grepStepPrev prev v =
      if hasDesc v then !((lastDescMatch v).getD false) else prev := rfl

theorem fast_piz_test_grep_fasta_included (prev : Bool) (lines : List FLine) :
    (fast_piz_test_grep_fasta prev lines).2.2 =
      (!prev || lines.any FLine.descMatch) := rfl

theorem foldl_grepStepPrev (vbs : List (List FLine)) :
    ∀ prev, vbs.foldl grepStepPrev prev =
      ((lastDescMatch vbs.flatten).map Bool.not).getD prev := by
  induction vbs with
  | nil => intro prev; rfl
  | cons v rest ih =>
    intro prev
    show rest.foldl grepStepPrev (grepStepPrev prev v) = _
    rw [ih, List.flatten_cons, lastDescMatch_append]
    cases hr : lastDescMatch rest.flatten with
    | some m => rfl
    | none =>
      cases hv : lastDescMatch v with
      | some m =>
        have : hasDesc v = true := by
          by_contra hf
          rw [Bool.not_eq_true] at hf
          rw [(hasDesc_false_iff v).mp hf] at hv
          exact Option.noConfusion hv
        simp [grepStepPrev_eq, this, hv]
      | none =>
        have : hasDesc v = false := (hasDesc_false_iff v).mpr hv
        simp [grepStepPrev_eq, this]

theorem fasta_grep_pipeline_get (vbs : List (List FLine)) :
    ∀ (prev : Bool) (i : Nat) (vbi : List FLine),
      vbs[i]? = some vbi →
      (fasta_grep_pipeline prev vbs)[i]? =
        some (if (fast_piz_test_grep_fasta ((vbs.take i).foldl grepStepPrev prev) vbi).2.2
              then fasta_piz_reconstruct_vb ((vbs.take i).foldl grepStepPrev prev) vbi
              else vbi.map (fun _ => false)) := by
  induction vbs with
  | nil => intro prev i vbi h; simp at h
  | cons v rest ih =>
    intro prev i vbi h
    match i with
    | 0 =>
      rw [List.getElem?_cons_zero, Option.some.injEq] at h
      subst h
      show ((if (fast_piz_test_grep_fasta prev v).2.2 then
              fasta_piz_reconstruct_vb (fast_piz_test_grep_fasta prev v).1 v
            else v.map (fun _ => false)) ::
            fasta_grep_pipeline (fast_piz_test_grep_fasta prev v).2.1 rest)[0]? = _
      rw [List.getElem?_cons_zero]
      rfl
    | i' + 1 =>
      rw [List.getElem?_cons_succ] at h
      show ((if (fast_piz_test_grep_fasta prev v).2.2 then
              fasta_piz_reconstruct_vb (fast_piz_test_grep_fasta prev v).1 v
            else v.map (fun _ => false)) ::
            fasta_grep_pipeline (fast_piz_test_grep_fasta prev v).2.1 rest)[i' + 1]? = _
      rw [List.getElem?_cons_succ, ih _ i' vbi h]
      rfl

/-- Splitting a prefix at a known element: `l.take j'` decomposes around the
element at position `j < j'`. -/
theorem take_decomp_at {α : Type} (l : List α) (j j' : Nat) (x : α)
    (hjj : j < j') (hx : l[j]? = some x) :
    l.take j' = l.take j ++ x :: ((l.drop (j + 1)).take (j' - (j + 1))) := by
  obtain ⟨hj, hxe⟩ := List.getElem?_eq_some.mp hx
  have h1 : j + (j' - j) = j' := by omega
  have h2 : l.drop j = x :: l.drop (j + 1) := by
    rw [List.drop_eq_getElem_cons hj, hxe]
  conv_lhs => rw [← h1, List.take_add]
  rw [h2]
  congr 1
  rw [show j' - j = (j' - (j + 1)) + 1 by omega, List.take_succ_cons]

theorem whole_decomp_at {α : Type} (l : List α) (j : Nat) (x : α) (hx : l[j]? = some x) :
    l = l.take j ++ x :: l.drop (j + 1) := by
  obtain ⟨hj, hxe⟩ := List.getElem?_eq_some.mp hx
  conv_lhs => rw [← List.take_append_drop j l]
  rw [List.drop_eq_getElem_cons hj, hxe]

theorem hasDesc_append (a b : List FLine) :
    hasDesc (a ++ b) = (hasDesc a || hasDesc b) := by
  simp [hasDesc]

/-- C8: with `--grep`, (i) a vblock containing no description line carries the
grepped-out flag forward unchanged; (ii) the flag inherited by every vblock is
the deterministic closed form "negation of the match status of the last
description line seen so far" (false before any description); and (iii) a grep
match on a description line causes every sequence and comment line of that
contig, up to the next description line, to be emitted — also when the contig
spans a vblock boundary. -/
theorem c8_fasta_grep_carryover :
    (∀ (prev : Bool) (lines : List FLine), hasDesc lines = false →
        grepStepPrev prev lines = prev) ∧
    (∀ (vbs : List (List FLine)) (k : Nat),
        prevFlagAt vbs k = ((lastDescMatch (vbs.take k).flatten).map Bool.not).getD false) ∧
    (∀ (vbs : List (List FLine)) (i j i' j' : Nat) (vbi vbi' : List FLine) (l' : FLine),
        vbs[i]? = some vbi → vbi[j]? = some (.desc true) →
        vbs[i']? = some vbi' → vbi'[j']? = some l' →
        l' = .seqLine ∨ l' = .commentLine →
        i ≤ i' → (i = i' → j < j') →
        hasDesc (linesBetween vbs i j i' j') = false →
        ((fasta_grep_pipeline false vbs)[i']?.getD [])[j']? = some true) := by
  refine ⟨?_, ?_, ?_⟩
  · intro prev lines h
    simp [grepStepPrev_eq, h]
  · intro vbs k
    exact foldl_grepStepPrev (vbs.take k) false
  · intro vbs i j i' j' vbi vbi' l' hvi hdj hvi' hlj' hl' hii hjj hbet
    rcases Nat.eq_or_lt_of_le hii with heq | hlt
    · -- same vblock
      subst heq
      rw [hvi] at hvi'
      injection hvi' with hvv
      subst hvv
      have hjj' := hjj rfl
      unfold linesBetween at hbet
      rw [if_pos rfl, hvi] at hbet
      simp only [Option.getD_some] at hbet
      -- the vblock is included: one of its description lines matches
      have hmem : FLine.desc true ∈ vbi := List.getElem?_mem hdj
      have hany : vbi.any FLine.descMatch = true :=
        List.any_eq_true.mpr ⟨_, hmem, rfl⟩
      have hinc : (fast_piz_test_grep_fasta ((vbs.take i).foldl grepStepPrev false) vbi).2.2
          = true := by
        rw [fast_piz_test_grep_fasta_included, hany, Bool.or_true]
      rw [fasta_grep_pipeline_get vbs false i vbi hvi, hinc, if_pos rfl]
      simp only [Option.getD_some]
      rw [fasta_piz_reconstruct_vb_get vbi _ j' l' hlj']
      have hnone : lastDescMatch ((vbi.drop (j + 1)).take (j' - (j + 1))) = none :=
        (hasDesc_false_iff _).mp hbet
      have hldm : lastDescMatch (vbi.take j') = some true := by
        rw [take_decomp_at vbi j j' (.desc true) hjj' hdj, lastDescMatch_append,
            lastDescMatch_cons, hnone]
      rw [fasta_piz_final_flag_formula, hldm]
      rcases hl' with rfl | rfl <;> rfl
    · -- the contig spans the vblock boundary: i < i'
      unfold linesBetween at hbet
      rw [if_neg (by omega), hvi, hvi'] at hbet
      simp only [Option.getD_some] at hbet
      rw [hasDesc_append, hasDesc_append, Bool.or_eq_false_iff, Bool.or_eq_false_iff] at hbet
      obtain ⟨⟨hb1, hb2⟩, hb3⟩ := hbet
      -- the flag inherited by vblock i' is false
      have hflag : (vbs.take i').foldl grepStepPrev false = false := by
        rw [foldl_grepStepPrev]
        have hdec : vbs.take i' =
            vbs.take i ++ vbi :: ((vbs.drop (i + 1)).take (i' - (i + 1))) :=
          take_decomp_at vbs i i' vbi hlt hvi
        rw [hdec]
        rw [List.flatten_append, List.flatten_cons, lastDescMatch_append]
        have hvbi : lastDescMatch vbi = some true := by
          conv_lhs => rw [whole_decomp_at vbi j (.desc true) hdj]
          rw [lastDescMatch_append, lastDescMatch_cons, (hasDesc_false_iff _).mp hb1]
        have hmidnone : lastDescMatch
            (vbi ++ ((vbs.drop (i + 1)).take (i' - (i + 1))).flatten) = some true := by
          rw [lastDescMatch_append, (hasDesc_false_iff _).mp hb2, hvbi]
        rw [hmidnone]
        rfl
      -- vblock i' is included: the previous contig was grepped in
      have hinc : (fast_piz_test_grep_fasta ((vbs.take i').foldl grepStepPrev false) vbi').2.2
          = true := by
        rw [fast_piz_test_grep_fasta_included, hflag]
        rfl
      rw [fasta_grep_pipeline_get vbs false i' vbi' hvi', hinc, if_pos rfl]
      simp only [Option.getD_some]
      rw [fasta_piz_reconstruct_vb_get vbi' _ j' l' hlj']
      rw [fasta_piz_final_flag_formula, (hasDesc_false_iff _).mp hb3, hflag]
      rcases hl' with rfl | rfl <;> rfl

/-- C8 witness: the spec's boundary scenario — `>A` matches, its contig spans
into the next vblock, whose sequence line is emitted; plus instances of the
no-desc carry rule and of the closed form of the flag. -/
theorem c8_fasta_grep_carryover_witness :
    grepStepPrev true [FLine.seqLine, FLine.seqLine] = true ∧
    prevFlagAt [[FLine.desc true, FLine.seqLine], [FLine.seqLine]] 2 =
      ((lastDescMatch ([[FLine.desc true, FLine.seqLine],
          [FLine.seqLine]].take 2).flatten).map Bool.not).getD false ∧
    ((fasta_grep_pipeline false
        [[FLine.desc true, FLine.seqLine], [FLine.seqLine]])[1]?.getD [])[0]? =
      some true :=
  ⟨c8_fasta_grep_carryover.1 true [FLine.seqLine, FLine.seqLine] rfl,
   c8_fasta_grep_carryover.2.1 [[FLine.desc true, FLine.seqLine], [FLine.seqLine]] 2,
   c8_fasta_grep_carryover.2.2 [[FLine.desc true, FLine.seqLine], [FLine.seqLine]]
     0 0 1 0 [FLine.desc true, FLine.seqLine] [FLine.seqLine] FLine.seqLine
     rfl rfl rfl rfl (Or.inl rfl) (by omega) (fun h => absurd h (by omega)) rfl⟩

/-- C5 witness: the amended theorem applied at concrete inputs
(`w = 8, v = -5`; `w = 64, v = 7`; and two order-preservation instances). -/
theorem c5_interlace_roundtrip_witness :
    DEINTERLACE 8 (interlace (-5)) = -5 ∧ DEINTERLACE 64 (interlace 7) = 7 ∧
    (interlace 3 ≤ interlace 4 ↔ (3:Int) ≤ 4) ∧
    (interlace (-3) ≤ interlace (-4) ↔ -(-3:Int) ≤ -(-4)) :=
  ⟨c5_interlace_roundtrip_amended.1 8 (Or.inl rfl) (-5) (by decide) (by decide)
      (fun _ => by decide),
   c5_interlace_roundtrip_amended.1 64 (by simp) 7 (by decide) (by decide)
      (fun h => by omega),
   c5_interlace_roundtrip_amended.2.1 3 4 (by decide) (by decide),
   c5_interlace_roundtrip_amended.2.2 (-3) (-4) (by decide) (by decide)⟩

/-! ## Claim C7: VCF ploidy escalation -/

theorem getD_set (b : List Char) (i j : Nat) (v d : Char) :
    (b.set i v).getD j d = if i = j ∧ j < b.length then v else b.getD j d := by
  rw [List.getD_eq_getElem?_getD, List.getD_eq_getElem?_getD, List.getElem?_set]
  by_cases h1 : i = j
  · subst h1
    by_cases h2 : i < b.length
    · simp [h2]
    · rw [if_pos rfl, if_neg h2, if_neg (by omega)]
      rw [List.getElem?_eq_none (by omega)]
  · rw [if_neg h1, if_neg (by simp [h1])]

theorem starWrites_length (base lo : Nat) :
    ∀ (n : Nat) (b : List Char), (starWrites base lo n b).length = b.length := by
  intro n
  induction n with
  | zero => intro b; rfl
  | succ n ih => intro b; rw [starWrites, ih, List.length_set]

theorem copyWrites_length (wbase rbase : Nat) :
    ∀ (n : Nat) (b : List Char), (copyWrites wbase rbase n b).length = b.length := by
  intro n
  induction n with
  | zero => intro b; rfl
  | succ n ih => intro b; rw [copyWrites, ih, List.length_set]

theorem incSample_length (b : List Char) (sam old new_p : Nat) :
    (incSample b sam old new_p).length = b.length := by
  rw [incSample, copyWrites_length, starWrites_length]

theorem starWrites_getD (base lo : Nat) :
    ∀ (n : Nat) (b : List Char) (p : Nat) (d : Char),
      (starWrites base lo n b).getD p d =
        if base + lo ≤ p ∧ p < base + lo + n ∧ p < b.length then '*' else b.getD p d := by
  intro n
  induction n with
  | zero => intro b p d; rw [starWrites, if_neg (by omega)]
  | succ n ih =>
    intro b p d
    rw [starWrites, ih, List.length_set]
    by_cases h1 : base + lo ≤ p ∧ p < base + lo + n ∧ p < b.length
    · rw [if_pos h1, if_pos (by omega)]
    · rw [if_neg h1, getD_set]
      by_cases h2 : base + lo + n = p ∧ p < b.length
      · rw [if_pos h2, if_pos (by omega)]
      · rw [if_neg h2, if_neg (by omega)]

theorem copyWrites_getD (wbase rbase : Nat) (hrw : rbase ≤ wbase) :
    ∀ (n : Nat) (b : List Char) (p : Nat) (d : Char), rbase + n ≤ b.length →
      (copyWrites wbase rbase n b).getD p d =
        if wbase ≤ p ∧ p < wbase + n ∧ p < b.length then b.getD (rbase + (p - wbase)) d
        else b.getD p d := by
  intro n
  induction n with
  | zero => intro b p d _; rw [copyWrites, if_neg (by omega)]
  | succ n ih =>
    intro b p d hn
    rw [copyWrites, ih _ _ _ (by rw [List.length_set]; omega), List.length_set]
    by_cases h1 : wbase ≤ p ∧ p < wbase + n ∧ p < b.length
    · rw [if_pos h1, if_pos (by omega), getD_set, if_neg (by omega)]
    · rw [if_neg h1, getD_set]
      by_cases h2 : wbase + n = p ∧ p < b.length
      · rw [if_pos h2, if_pos (by omega)]
        have hk : p - wbase = n := by omega
        rw [hk]
        have hr : rbase + n < b.length := by omega
        rw [List.getD_eq_getElem?_getD, List.getD_eq_getElem?_getD,
            List.getElem?_eq_getElem hr]
        rfl
      · rw [if_neg h2, if_neg (by omega)]

theorem incSample_getD (b : List Char) (sam old new_p : Nat) (hop : old ≤ new_p)
    (hlen : sam * old + old ≤ b.length) (p : Nat) (d : Char) :
    (incSample b sam old new_p).getD p d =
      if sam * new_p ≤ p ∧ p < sam * new_p + new_p ∧ p < b.length then
        (if p - sam * new_p < old then b.getD (sam * old + (p - sam * new_p)) d else '*')
      else b.getD p d := by
  have hmul : sam * old ≤ sam * new_p := Nat.mul_le_mul_left sam hop
  rw [incSample,
    copyWrites_getD _ _ hmul old _ _ _ (by rw [starWrites_length]; omega),
    starWrites_length, starWrites_getD, starWrites_getD]
  by_cases h1 : sam * new_p ≤ p ∧ p < sam * new_p + old ∧ p < b.length
  · rw [if_pos h1, if_neg (by omega), if_pos (by omega), if_pos (by omega)]
  · rw [if_neg h1]
    by_cases h2 : sam * new_p + old ≤ p ∧ p < sam * new_p + old + (new_p - old) ∧ p < b.length
    · rw [if_pos h2, if_pos (by omega), if_neg (by omega)]
    · rw [if_neg h2]
      by_cases h3 : sam * new_p ≤ p ∧ p < sam * new_p + new_p ∧ p < b.length
      · exact absurd h3 (by omega)
      · rw [if_neg h3]

theorem increase_one_line_spec (old new_p : Nat) (hop : old ≤ new_p) :
    ∀ (ns : Nat) (b : List Char), ns * new_p ≤ b.length →
      (∀ (p : Nat) (d : Char), ns * new_p ≤ p →
        (vcf_seg_increase_ploidy_one_line b old new_p ns).getD p d = b.getD p d) ∧
      (∀ (sam ht : Nat) (d : Char), sam < ns → ht < new_p →
        (vcf_seg_increase_ploidy_one_line b old new_p ns).getD (sam * new_p + ht) d =
          (if ht < old then b.getD (sam * old + ht) d else '*')) := by
  intro ns
  induction ns with
  | zero => intro b _; exact ⟨fun p d _ => rfl, fun sam ht d hs _ => absurd hs (by omega)⟩
  | succ s ih =>
    intro b hlen
    have hmulS : (s + 1) * old ≤ (s + 1) * new_p := Nat.mul_le_mul_left _ hop
    have hmul1 : s * old ≤ s * new_p := Nat.mul_le_mul_left s hop
    have hsucc : (s + 1) * new_p = s * new_p + new_p := Nat.succ_mul s new_p
    have hsuccO : (s + 1) * old = s * old + old := Nat.succ_mul s old
    have hlenS : s * old + old ≤ b.length := by omega
    have hlen1 : s * new_p ≤ (incSample b s old new_p).length := by
      rw [incSample_length]; omega
    obtain ⟨ihF, ihC⟩ := ih (incSample b s old new_p) hlen1
    constructor
    · intro p d hp
      rw [vcf_seg_increase_ploidy_one_line, ihF p d (by omega),
        incSample_getD b s old new_p hop hlenS, if_neg (by omega)]
    · intro sam ht d hs hht
      rcases Nat.lt_or_ge sam s with hlt | hge
      · rw [vcf_seg_increase_ploidy_one_line, ihC sam ht d hlt hht]
        by_cases hho : ht < old
        · have hmulSam : (sam + 1) * old ≤ s * old :=
            Nat.mul_le_mul_right old (by omega)
          have hsam : (sam + 1) * old = sam * old + old := Nat.succ_mul sam old
          rw [if_pos hho, if_pos hho,
            incSample_getD b s old new_p hop hlenS, if_neg (by omega)]
        · rw [if_neg hho, if_neg hho]
      · have hsam : sam = s := by omega
        subst hsam
        rw [vcf_seg_increase_ploidy_one_line, ihF _ d (by omega),
          incSample_getD b sam old new_p hop hlenS, if_pos (by omega)]
        have hk : sam * new_p + ht - sam * new_p = ht := by omega
        rw [hk]

set_option maxHeartbeats 1000000 in
theorem vcf_seg_haplotype_area_frame (vb : SegVb) (dl : Char) (cell : List Char)
    (sample_i : Nat) (r : SegVb × Char)
    (h : vcf_seg_haplotype_area vb dl cell sample_i = .ok r) :
    (¬(vb.ploidy ≠ 0 ∧ cellPloidy cell > vb.ploidy) →
      r.1.prev_lines = vb.prev_lines ∧
      r.1.ploidy = (if vb.ploidy = 0 then cellPloidy cell else vb.ploidy)) ∧
    r.1.num_samples = vb.num_samples := by
  simp only [vcf_seg_haplotype_area] at h
  repeat' split at h
  all_goals first
    | exact Except.noConfusion h
    | (injection h with h'
       subst h'
       refine ⟨fun hni => ?_, ?_⟩ <;> simp_all [vcf_seg_increase_ploidy])

theorem vcf_seg_haplotype_area_uniform (vb : SegVb) (dl : Char) (cell : List Char)
    (sample_i : Nat) (q : Nat) (hq : cellPloidy cell = q)
    (hvb : vb.ploidy = 0 ∨ vb.ploidy = q) (r : SegVb × Char)
    (h : vcf_seg_haplotype_area vb dl cell sample_i = .ok r) :
    r.1.prev_lines = vb.prev_lines ∧ (r.1.ploidy = 0 ∨ r.1.ploidy = q) ∧
    r.1.num_samples = vb.num_samples := by
  obtain ⟨hcond, hns⟩ := vcf_seg_haplotype_area_frame vb dl cell sample_i r h
  have hni : ¬(vb.ploidy ≠ 0 ∧ cellPloidy cell > vb.ploidy) := by
    rcases hvb with h0 | hqq
    · simp [h0]
    · rw [hq, hqq]; omega
  obtain ⟨hprev, hpl⟩ := hcond hni
  refine ⟨hprev, ?_, hns⟩
  rw [hpl]
  by_cases h0 : vb.ploidy = 0
  · rw [if_pos h0, hq]; exact Or.inr rfl
  · rw [if_neg h0]
    rcases hvb with h0' | hqq
    · exact absurd h0' h0
    · exact Or.inr hqq

theorem gt_samples_uniform (q : Nat) :
    ∀ (cells : List (List Char)) (vb : SegVb) (dl : Char) (s : Nat),
      (∀ c ∈ cells, cellPloidy c = q) → (vb.ploidy = 0 ∨ vb.ploidy = q) →
      ∀ r, vcf_seg_gt_samples vb dl s cells = .ok r →
        r.1.prev_lines = vb.prev_lines ∧ (r.1.ploidy = 0 ∨ r.1.ploidy = q) ∧
        r.1.num_samples = vb.num_samples := by
  intro cells
  induction cells with
  | nil =>
    intro vb dl s _ hvb r h
    injection h with h'
    subst h'
    exact ⟨rfl, hvb, rfl⟩
  | cons c cs ih =>
    intro vb dl s hc hvb r h
    cases harea : vcf_seg_haplotype_area vb dl c s with
    | error e => rw [vcf_seg_gt_samples, harea] at h; exact Except.noConfusion h
    | ok r1 =>
      obtain ⟨vb1, dl1⟩ := r1
      rw [vcf_seg_gt_samples, harea] at h
      simp only [] at h
      obtain ⟨hprev1, hpl1, hns1⟩ :=
        vcf_seg_haplotype_area_uniform vb dl c s q (hc c (List.mem_cons_self c cs)) hvb
          (vb1, dl1) harea
      obtain ⟨hprev2, hpl2, hns2⟩ :=
        ih vb1 dl1 (s + 1) (fun c' hc' => hc c' (List.mem_cons_of_mem c hc')) hpl1 r h
      exact ⟨hprev2.trans hprev1, hpl2, hns2.trans hns1⟩

theorem gt_line_uniform (q : Nat) (line : List (List Char)) (vb : SegVb)
    (hc : ∀ c ∈ line, cellPloidy c = q) (hvb : vb.ploidy = 0 ∨ vb.ploidy = q)
    (r : SegVb) (h : vcf_seg_gt_line vb line = .ok r) :
    (∃ nl, r.prev_lines = vb.prev_lines ++ [nl]) ∧ (r.ploidy = 0 ∨ r.ploidy = q) ∧
    r.num_samples = vb.num_samples := by
  cases hsam : vcf_seg_gt_samples vb PHASE_UNKNOWN 0 line with
  | error e => rw [vcf_seg_gt_line, hsam] at h; exact Except.noConfusion h
  | ok r1 =>
    obtain ⟨vb1, dl1⟩ := r1
    rw [vcf_seg_gt_line, hsam] at h
    simp only [] at h
    injection h with h'
    subst h'
    obtain ⟨hprev, hpl, hns⟩ :=
      gt_samples_uniform q line vb PHASE_UNKNOWN 0 hc hvb (vb1, dl1) hsam
    exact ⟨⟨_, by rw [← hprev]⟩, hpl, hns⟩

theorem gt_lines_uniform (q : Nat) :
    ∀ (lines : List (List (List Char))) (vb : SegVb),
      (∀ line ∈ lines, ∀ c ∈ line, cellPloidy c = q) →
      (vb.ploidy = 0 ∨ vb.ploidy = q) →
      ∀ r, vcf_seg_gt_lines vb lines = .ok r →
        ∃ t, r.prev_lines = vb.prev_lines ++ t := by
  intro lines
  induction lines with
  | nil =>
    intro vb _ _ r h
    injection h with h'
    subst h'
    exact ⟨[], (List.append_nil _).symm⟩
  | cons line rest ih =>
    intro vb hc hvb r h
    cases hline : vcf_seg_gt_line vb line with
    | error e => rw [vcf_seg_gt_lines, hline] at h; exact Except.noConfusion h
    | ok vb1 =>
      rw [vcf_seg_gt_lines, hline] at h
      simp only [] at h
      obtain ⟨⟨nl, hnl⟩, hpl, hns⟩ :=
        gt_line_uniform q line vb (hc line (List.mem_cons_self line rest)) hvb vb1 hline
      obtain ⟨t, ht⟩ := ih vb1 (fun l' hl' => hc l' (List.mem_cons_of_mem line hl')) hpl r h
      exact ⟨nl :: t, by rw [ht, hnl, List.append_assoc]; rfl⟩

/-- C7: (a) raising the vblock ploidy via `vcf_seg_increase_ploidy` back-pads
with `'*'` every sample of every earlier row, and every earlier sample of the
current line, from the old ploidy up to the new one, leaving the old alleles
in place; (b) a vblock whose GT cells all share one uniform ploidy never
rewrites a committed row (the rows only ever grow by appending); (c) in the
concrete scenario, line 1 `0/0 0/0 0/0` followed by a line introducing
`0/1/1` leaves line 1's haplotype data back-padded to `00*00*00*`, whose
first sample is reconstructed as `0/0/*`. -/
theorem c7_ploidy_backpad :
    (∀ (vb : SegVb) (new_p sample_i : Nat), vb.ploidy ≤ new_p →
      (∀ (row : Nat) (L : List Char) (sam ht : Nat) (d : Char),
        vb.prev_lines[row]? = some L → L.length = vb.num_samples * vb.ploidy →
        sam < vb.num_samples → ht < new_p →
        (((vcf_seg_increase_ploidy vb new_p sample_i).prev_lines[row]?.getD []).getD
            (sam * new_p + ht) d =
          if ht < vb.ploidy then L.getD (sam * vb.ploidy + ht) d else '*')) ∧
      (∀ (sam ht : Nat) (d : Char), sample_i * new_p ≤ vb.line_ht_data.length →
        sample_i ≠ 0 → sam < sample_i → ht < new_p →
        ((vcf_seg_increase_ploidy vb new_p sample_i).line_ht_data.getD
            (sam * new_p + ht) d =
          if ht < vb.ploidy then vb.line_ht_data.getD (sam * vb.ploidy + ht) d else '*'))) ∧
    (∀ (q : Nat) (lines : List (List (List Char))) (vb r : SegVb),
      (∀ line ∈ lines, ∀ c ∈ line, cellPloidy c = q) →
      (vb.ploidy = 0 ∨ vb.ploidy = q) →
      vcf_seg_gt_lines vb lines = .ok r →
      ∃ t, r.prev_lines = vb.prev_lines ++ t) ∧
    (vcf_seg_gt_lines c7vb0
        [["0/0".toList, "0/0".toList, "0/0".toList],
         ["0/1/1".toList, "0/1/1".toList, "0/1/1".toList]] = .ok c7resS ∧
     c7resS.prev_lines[0]? = some "00*00*00*".toList ∧
     spec_reconstruct_gt_cell '/' ((c7resS.prev_lines.getD 0 []).take 3) =
       "0/0/*".toList) := by
  refine ⟨?_, ?_, rfl, rfl, rfl⟩
  · intro vb new_p sample_i hple
    constructor
    · intro row L sam ht d hrow hL hsam hht
      have hmap : (vcf_seg_increase_ploidy vb new_p sample_i).prev_lines[row]? =
          some (vcf_seg_increase_ploidy_one_line
            (L ++ List.replicate (vb.num_samples * new_p - L.length) '#')
            vb.ploidy new_p vb.num_samples) := by
        show (vb.prev_lines.map _)[row]? = _
        rw [List.getElem?_map, hrow]
        rfl
      rw [hmap]
      simp only [Option.getD_some]
      have hmm : vb.num_samples * vb.ploidy ≤ vb.num_samples * new_p :=
        Nat.mul_le_mul_left _ hple
      have hlen : vb.num_samples * new_p ≤
          (L ++ List.replicate (vb.num_samples * new_p - L.length) '#').length := by
        rw [List.length_append, List.length_replicate]; omega
      rw [(increase_one_line_spec vb.ploidy new_p hple vb.num_samples _ hlen).2
        sam ht d hsam hht]
      by_cases hho : ht < vb.ploidy
      · rw [if_pos hho, if_pos hho]
        have hpos : sam * vb.ploidy + ht < L.length := by
          have h1 : (sam + 1) * vb.ploidy ≤ vb.num_samples * vb.ploidy :=
            Nat.mul_le_mul_right _ (by omega)
          have h2 : (sam + 1) * vb.ploidy = sam * vb.ploidy + vb.ploidy :=
            Nat.succ_mul _ _
          omega
        rw [List.getD_eq_getElem?_getD, List.getElem?_append_left hpos,
            ← List.getD_eq_getElem?_getD]
      · rw [if_neg hho, if_neg hho]
    · intro sam ht d hlinelen hsi hsam hht
      have hline : (vcf_seg_increase_ploidy vb new_p sample_i).line_ht_data =
          vcf_seg_increase_ploidy_one_line vb.line_ht_data vb.ploidy new_p sample_i := by
        show (if sample_i ≠ 0 then _ else _) = _
        rw [if_pos hsi]
      rw [hline,
        (increase_one_line_spec vb.ploidy new_p hple sample_i _ hlinelen).2 sam ht d hsam hht]
  · intro q lines vb r hc hvb h
    exact gt_lines_uniform q lines vb hc hvb r h

/-- C7 witness: the padding formula applied at a one-sample diploid row raised
to triploid (`'*'` at the new slot) and at the current line's earlier sample;
and the uniform-diploid line `0/0 0/0 0/0`, which only appends to the
committed rows. -/
theorem c7_ploidy_backpad_witness :
    (((vcf_seg_increase_ploidy c7wvbA 3 0).prev_lines[0]?.getD []).getD (0 * 3 + 2) '?'
      = '*') ∧
    ((vcf_seg_increase_ploidy c7wvbB 2 1).line_ht_data.getD (0 * 2 + 1) '?' = '*') ∧
    (∃ t, c7resU.prev_lines = c7vb0.prev_lines ++ t) :=
  ⟨(c7_ploidy_backpad.1 c7wvbA 3 0 (by decide)).1 0 ['0', '1'] 0 2 '?' rfl rfl
      (by decide) (by decide),
   (c7_ploidy_backpad.1 c7wvbB 2 1 (by decide)).2 0 1 '?' (by decide) (by decide)
      (by decide) (by decide),
   c7_ploidy_backpad.2.1 2 [["0/0".toList, "0/0".toList, "0/0".toList]] c7vb0 c7resU
      (by decide) (Or.inl rfl) rfl⟩

end Genozip
